import Mathlib

/-
Verification development for the CodeMesh MCP server.

The definitions below are a shallow embedding of the TypeScript sources:
pure string/naming utilities (utils.ts), the sandboxed code executor
(codeExecutor.ts), the tool discovery service (toolDiscovery.ts), the
runtime wrapper that multiplexes MCP connections (runtimeWrapper.ts), the
TypeScript type generator (typeGenerator.ts), the augmentation store
(augmentation.ts and the add-augmentation handler in index.ts), and the
execute-code handler's tool-selection logic (index.ts).

JavaScript strings are modelled as Lean `String`s (lists of characters);
JavaScript's `String.prototype.trim`, `replace`, `split`, `match` and the
concrete regular expressions appearing in the sources are modelled by
explicit recursive functions on `List Char`, mirroring ECMAScript
semantics (multiline `^`/`$` anchors match around line terminators, `.`
does not match line terminators, lazy quantifiers take minimal matches).
Side-effecting collaborators (the MCP SDK client, `json-schema-to-typescript`,
the filesystem) are parameters ("oracles") that can fail, matching the
`try`/`catch` structure of the sources.
-/

namespace CodeMesh

/-! ### Character classes (ECMAScript) -/

/-- The code points `String.prototype.trim` removes: the ECMAScript
WhiteSpace production (tab, line tabulation, form feed, space, no-break
space, zero-width no-break space, and the Unicode Space_Separator
characters U+1680, U+2000..U+200A, U+202F, U+205F, U+3000) together with
the LineTerminator production (LF, CR, U+2028, U+2029). -/
def jsSpaceChars : List Char :=
  [' ', '\t', '\n', '\u000d', '\u000c', '\u000b',
   '\u00a0', '\u1680', '\u2000', '\u2001', '\u2002', '\u2003',
   '\u2004', '\u2005', '\u2006', '\u2007', '\u2008', '\u2009',
   '\u200a', '\u2028', '\u2029', '\u202f', '\u205f', '\u3000',
   '\ufeff']

/-- JavaScript whitespace as trimmed by `String.prototype.trim`. -/
def jsIsSpace (c : Char) : Bool := jsSpaceChars.contains c

/-- ECMAScript line terminators (`\n`, `\r`, U+2028, U+2029). -/
def isLineTerm (c : Char) : Bool :=
  c = '\n' || c = '\x0d' || c = '\u2028' || c = '\u2029'

/-- The separator class `[-_]` of the camel-case regex. -/
def isSep (c : Char) : Bool := c = '-' || c = '_'

/-- The regex word class `\w` = `[A-Za-z0-9_]`. -/
def isWordChar (c : Char) : Bool := c.isAlphanum || c = '_'

/-- `String.prototype.toUpperCase`, restricted to the ASCII letters that occur
in identifiers (a lookup table keeps the model free of character arithmetic). -/
def jsToUpper (c : Char) : Char :=
  match c with
  | 'a' => 'A' | 'b' => 'B' | 'c' => 'C' | 'd' => 'D' | 'e' => 'E' | 'f' => 'F'
  | 'g' => 'G' | 'h' => 'H' | 'i' => 'I' | 'j' => 'J' | 'k' => 'K' | 'l' => 'L'
  | 'm' => 'M' | 'n' => 'N' | 'o' => 'O' | 'p' => 'P' | 'q' => 'Q' | 'r' => 'R'
  | 's' => 'S' | 't' => 'T' | 'u' => 'U' | 'v' => 'V' | 'w' => 'W' | 'x' => 'X'
  | 'y' => 'Y' | 'z' => 'Z'
  | other => other

/-- `String.prototype.toLowerCase`, restricted likewise. -/
def jsToLower (c : Char) : Char :=
  match c with
  | 'A' => 'a' | 'B' => 'b' | 'C' => 'c' | 'D' => 'd' | 'E' => 'e' | 'F' => 'f'
  | 'G' => 'g' | 'H' => 'h' | 'I' => 'i' | 'J' => 'j' | 'K' => 'k' | 'L' => 'l'
  | 'M' => 'm' | 'N' => 'n' | 'O' => 'o' | 'P' => 'p' | 'Q' => 'q' | 'R' => 'r'
  | 'S' => 's' | 'T' => 't' | 'U' => 'u' | 'V' => 'v' | 'W' => 'w' | 'X' => 'x'
  | 'Y' => 'y' | 'Z' => 'z'
  | other => other

/-! ### JavaScript string primitives -/

/-- `String.prototype.trim` on character lists: drop whitespace from the
front, then from the back. -/
def trimChars (l : List Char) : List Char :=
  (l.dropWhile jsIsSpace).rdropWhile jsIsSpace

/-- `String.prototype.trim`. -/
def jsTrim (s : String) : String := ⟨trimChars s.data⟩

/-- `String.prototype.startsWith`. -/
def strStartsWith (s pre : String) : Bool := pre.data.isPrefixOf s.data

/-- Substring containment on character lists (`String.prototype.includes`). -/
def charsContain (hay needle : List Char) : Bool :=
  needle.isPrefixOf hay ||
    match hay with
    | [] => false
    | _ :: rest => charsContain rest needle

/-- `String.prototype.endsWith`. -/
def strEndsWith (s suf : String) : Bool := suf.data.isSuffixOf s.data

/-- Drop the last `n` characters (used to model `replace(/suffix$/, ...)`). -/
def strDropRight (s : String) (n : Nat) : String :=
  ⟨s.data.take (s.data.length - n)⟩

/-- `split('\n')` on character lists. -/
def splitNlChars : List Char → List (List Char)
  | [] => [[]]
  | c :: rest =>
    if c = '\n' then [] :: splitNlChars rest
    else
      match splitNlChars rest with
      | [] => [[c]]
      | seg :: segs => (c :: seg) :: segs

/-- `String.prototype.split('\n')`. -/
def splitNl (s : String) : List String := (splitNlChars s.data).map (⟨·⟩)

/-- `Array.prototype.join('\n')`. -/
def joinNl : List String → String
  | [] => ""
  | [s] => s
  | s :: rest => s ++ "\n" ++ joinNl rest

/-! ### Association lists modelling JavaScript `Map`

`Map.prototype.set` overwrites an existing key in place and otherwise appends,
preserving insertion order; `Map.prototype.get` finds the unique entry. -/

/-- `Map.prototype.set`. -/
def setA {α : Type} (k : String) (v : α) : List (String × α) → List (String × α)
  | [] => [(k, v)]
  | (k', v') :: rest => if k' = k then (k, v) :: rest else (k', v') :: setA k v rest

/-- `Map.prototype.get` (also models `Map.prototype.has` via `Option.isSome`). -/
def getA {α : Type} (k : String) : List (String × α) → Option α
  | [] => none
  | (k', v') :: rest => if k' = k then some v' else getA k rest

/-- The keys of an association list, in order. -/
def keysOf {α : Type} (l : List (String × α)) : List String := l.map (·.1)

/-! ### utils.ts — naming utilities -/

/-- One left-to-right pass of `str.replace(/[-_](.)/g, (_, ch) => ch.toUpperCase())`:
a separator followed by a non-line-terminator (ECMAScript `.`) consumes both and
emits the upper-cased character; matches do not overlap. -/
def camelChars : List Char → List Char
  | [] => []
  | c :: rest =>
    if isSep c then
      match rest with
      | [] => [c]
      | d :: rest' =>
        if isLineTerm d then c :: camelChars (d :: rest')
        else jsToUpper d :: camelChars rest'
    else c :: camelChars rest

/-- `toCamelCase` from utils.ts. -/
def toCamelCase (s : String) : String := ⟨camelChars s.data⟩

/-- `charAt(0).toUpperCase() + slice(1)` (empty string maps to itself). -/
def upFirst (s : String) : String :=
  match s.data with
  | [] => ""
  | c :: cs => ⟨jsToUpper c :: cs⟩

/-- `toPascalCase` from utils.ts. -/
def toPascalCase (s : String) : String := upFirst (toCamelCase s)

/-- The `replace` in utils.ts that drops one trailing `-server` from a server id. -/
def stripServerSuffix (s : String) : String :=
  if strEndsWith s "-server" then strDropRight s 7 else s

/-- `createServerObjectName` from utils.ts. -/
def createServerObjectName (serverId : String) : String :=
  toCamelCase (stripServerSuffix serverId) ++ "Server"

/-- `convertToolName` from utils.ts. -/
def convertToolName (toolName : String) : String := toCamelCase toolName

/-- `convertServerName` from utils.ts. -/
def convertServerName (serverId : String) : String :=
  toPascalCase (stripServerSuffix serverId)

/-- `str.replace(/[^a-zA-Z0-9]/g, '_')` applied to one character. -/
def safeIdentChar (c : Char) : Char := if c.isAlphanum then c else '_'

/-- `str.replace(/[^a-zA-Z0-9]/g, '_')`. -/
def makeSafe (s : String) : String := ⟨s.data.map safeIdentChar⟩

/-- `createSafeFunctionName` from utils.ts. -/
def createSafeFunctionName (toolName serverId : String) : String :=
  makeSafe toolName ++ "_" ++ makeSafe serverId

/-! ### codeExecutor.ts — sandboxed script execution

A run of the compiled script inside the `vm2` sandbox is represented by its
observable trace: the ordered `console.log` / `console.error` calls it makes,
terminated by a normal return or a thrown value.  The injected tool proxies
only determine which identifiers resolve inside the sandbox; their effect is
already reflected in the trace, so `executeCode` takes the injected names
purely for shape. -/

/-- A JavaScript value as observed at the sandbox boundary.  `vObj` carries
the string `JSON.stringify(value, null, 2)` would produce for it. -/
inductive JsVal where
  | vStr (s : String)
  | vNum (n : Int)
  | vBool (b : Bool)
  | vUndef
  | vNull
  | vObj (pretty : String)
deriving DecidableEq

/-- `typeof value === 'object'`. -/
def jsTypeofObject : JsVal → Bool
  | .vObj _ => true
  | .vNull => true
  | _ => false

/-- `JSON.stringify(value, null, 2)` for the values the console capture
serializes (only reached on the `typeof === 'object'` branch). -/
def jsonStringify : JsVal → String
  | .vObj pretty => pretty
  | .vNull => "null"
  | .vStr s => "\"" ++ s ++ "\""
  | .vNum n => toString n
  | .vBool b => cond b "true" "false"
  | .vUndef => "undefined"

/-- `String(value)`. -/
def jsString : JsVal → String
  | .vStr s => s
  | .vNum n => toString n
  | .vBool b => cond b "true" "false"
  | .vUndef => "undefined"
  | .vNull => "null"
  | .vObj _ => "[object Object]"

/-- One argument of a `console.log` call, serialized as in the sandbox's
console capture: objects via `JSON.stringify(..., null, 2)`, everything else
via `String(...)`. -/
def serializeArg (v : JsVal) : String :=
  if jsTypeofObject v then jsonStringify v else jsString v

/-- `args.map(serialize).join(' ')`. -/
def consoleMessage (args : List JsVal) : String :=
  String.intercalate " " (args.map serializeArg)

/-- A thrown JavaScript value: either an `Error` instance (whose `.message`
is reported) or an arbitrary value (reported via `String(...)`). -/
inductive JsError where
  | errObj (message : String)
  | errVal (value : JsVal)
deriving DecidableEq

/-- `error instanceof Error ? error.message : String(error)`. -/
def jsErrorText : JsError → String
  | .errObj m => m
  | .errVal v => jsString v

/-- One observable step of the script running inside the sandbox. -/
inductive Stmt where
  | consoleLog (args : List JsVal)
  | consoleError (args : List JsVal)
  | throwJs (e : JsError)
  | retJs (v : JsVal)
deriving DecidableEq

/-- Run the script's trace against the capturing console: `console.log`
pushes the joined message, `console.error` pushes it prefixed with
`ERROR: `, and the first `throw` or `return` settles the run (a trace with
neither settles to `undefined`, like an async function body that falls
through). -/
def runSandbox : List Stmt → List String → List String × Except JsError JsVal
  | [], logs => (logs, .ok JsVal.vUndef)
  | .consoleLog args :: rest, logs => runSandbox rest (logs ++ [consoleMessage args])
  | .consoleError args :: rest, logs =>
      runSandbox rest (logs ++ ["ERROR: " ++ consoleMessage args])
  | .throwJs e :: _, logs => (logs, .error e)
  | .retJs v :: _, logs => (logs, .ok v)

/-- Submitted code, as seen through `compileTypeScript`: either it transpiles
to a script (whose sandboxed behavior is its trace), or `ts.transpile` threw
and `compileTypeScript` wrapped the failure. -/
inductive Code where
  | compiles (script : List Stmt)
  | compileError (msg : String)
deriving DecidableEq

/-- `ExecutionResult` from codeExecutor.ts. -/
structure ExecutionResult where
  success : Bool
  result : Option JsVal
  error : Option String
  logs : List String
deriving DecidableEq

/-- `CodeExecutor.executeCode`: the whole body runs inside one `try`; the
compile step runs before the VM is built (so a compile failure reports with
empty logs), and a throw out of the awaited run is caught and converted into
a `success: false` outcome carrying the logs captured so far.  `toolNames`
lists the injected proxy identifiers; the script trace already reflects any
calls through them. -/
def executeCode (_toolNames : List String) (code : Code) : ExecutionResult :=
  match code with
  | .compileError msg =>
      { success := false, result := none
        error := some ("TypeScript compilation failed: " ++ msg), logs := [] }
  | .compiles script =>
      match runSandbox script [] with
      | (logs, .ok v) => { success := true, result := some v, error := none, logs := logs }
      | (logs, .error e) =>
          { success := false, result := none, error := some (jsErrorText e), logs := logs }

/-! ### config.ts and toolDiscovery.ts — configuration and discovery -/

/-- A JSON value (tool schemas, tool-call arguments, structured output). -/
inductive JsonVal where
  | jNull
  | jBool (b : Bool)
  | jNum (n : Int)
  | jStr (s : String)
  | jArr (elems : List JsonVal)
  | jObj (fields : List (String × JsonVal))

/-- JavaScript truthiness of a JSON value. -/
def jsonTruthy : JsonVal → Bool
  | .jNull => false
  | .jBool b => b
  | .jNum n => n != 0
  | .jStr s => s != ""
  | .jArr _ => true
  | .jObj _ => true

/-- `McpServerConfig` (config.ts).  The `type` enum admits `stdio`, `http`
and `websocket`; `env` entries are service-specific environment overrides. -/
structure McpServerConfig where
  id : String
  name : String
  type : String
  command : Option (List String) := none
  cwd : Option String := none
  env : List (String × String) := []
  url : Option String := none
  timeout : Option Int := none
  retries : Option Int := none

/-- `DiscoveredTool` (toolDiscovery.ts). -/
structure DiscoveredTool where
  name : String
  description : Option String := none
  inputSchema : Option JsonVal := none
  outputSchema : Option JsonVal := none
  serverId : String
  serverName : String

/-- `DiscoveryResult` (toolDiscovery.ts). -/
structure DiscoveryResult where
  serverId : String
  serverName : String
  success : Bool
  tools : List DiscoveredTool
  error : Option String := none

/-- The name/description/schemas quadruple the MCP `listTools` call reports
for one remote tool. -/
structure ToolDecl where
  name : String
  description : Option String := none
  inputSchema : Option JsonVal := none
  outputSchema : Option JsonVal := none

/-- The external MCP client pipeline used during discovery (create transport,
connect, `listTools`, close), one oracle per transport kind; a `.error`
outcome stands for any exception thrown inside the `try` block. -/
structure DiscoEnv where
  httpList : McpServerConfig → Except String (List ToolDecl)
  stdioList : McpServerConfig → Except String (List ToolDecl)

/-- The per-server tool conversion both discovery functions perform on the
`listTools` response. -/
def toolFromDecl (server : McpServerConfig) (t : ToolDecl) : DiscoveredTool :=
  { name := t.name, description := t.description, inputSchema := t.inputSchema
    outputSchema := t.outputSchema, serverId := server.id, serverName := server.name }

/-- `ToolDiscoveryService.discoverFromHttpServer`. -/
def discoverFromHttpServer (env : DiscoEnv) (server : McpServerConfig) : DiscoveryResult :=
  if server.type ≠ "http" ∨ server.url = none then
    { serverId := server.id, serverName := server.name, success := false, tools := []
      error := some "Server is not HTTP type or URL missing" }
  else
    match env.httpList server with
    | .ok decls =>
        { serverId := server.id, serverName := server.name, success := true
          tools := decls.map (toolFromDecl server), error := none }
    | .error e =>
        { serverId := server.id, serverName := server.name, success := false
          tools := [], error := some e }

/-- `ToolDiscoveryService.discoverFromStdioServer`. -/
def discoverFromStdioServer (env : DiscoEnv) (server : McpServerConfig) : DiscoveryResult :=
  if server.type ≠ "stdio" ∨ server.command = none ∨ server.command = some [] then
    { serverId := server.id, serverName := server.name, success := false, tools := []
      error := some "Server is not stdio type or command missing" }
  else
    match env.stdioList server with
    | .ok decls =>
        { serverId := server.id, serverName := server.name, success := true
          tools := decls.map (toolFromDecl server), error := none }
    | .error e =>
        { serverId := server.id, serverName := server.name, success := false
          tools := [], error := some e }

/-- `ToolDiscoveryService.discoverAllTools`: the configured servers are first
partitioned by `type === 'http'` and `type === 'stdio'`, then each partition
is discovered sequentially.  A server of any other `type` (the schema also
admits `websocket`) falls into neither partition. -/
def discoverAllTools (env : DiscoEnv) (servers : List McpServerConfig) : List DiscoveryResult :=
  (servers.filter (fun s => s.type = "http")).map (discoverFromHttpServer env) ++
    (servers.filter (fun s => s.type = "stdio")).map (discoverFromStdioServer env)

/-- Modelled from the spec: the per-service discovery step the specification
describes — "for each descriptor, open a transport-appropriate connection,
request its tool enumeration, close the connection, and produce one
DiscoveryResult per service".  Used to state how `discoverAllTools` compares
to one-result-per-configured-service discovery. -/
def specDiscoverOne (env : DiscoEnv) (server : McpServerConfig) : DiscoveryResult :=
  if server.type = "http" then discoverFromHttpServer env server
  else discoverFromStdioServer env server

/-! ### runtimeWrapper.ts — per-execution connection registry

Clients are identified by numbers; `ConnEnv.connect` stands for
`new Client(...)` + `client.connect(transport)` and may fail, and
`ConnEnv.remoteCall` stands for `client.callTool(...)`.  The wrapper state
carries one ghost field, `opensLog`, recording the server ids for which a
fresh transport was actually created and connected; it is written exactly
where the source performs the connect, and exists only so theorems can
distinguish reusing a cached connection from opening a new one. -/

/-- `ContentItem` of an MCP `CallToolResult`. -/
structure ContentItem where
  type : String
  text : String
deriving DecidableEq

/-- `ToolResult` (re-exported `CallToolResult`). -/
structure ToolResult where
  content : List ContentItem
  isError : Option Bool := none
  structuredContent : Option JsonVal := none

/-- `RuntimeTool` (runtimeWrapper.ts). -/
structure RuntimeTool where
  name : String
  originalName : String
  serverId : String
  serverConfig : McpServerConfig
  tool : DiscoveredTool

/-- The transport value built inside `getConnection`. -/
inductive Transport where
  | http (url : String)
  | stdio (command : String) (args : List String) (cwd : String)
      (env : List (String × String))

/-- Spread-merge of environment records: keys of `extra` win over `base`. -/
def mergeEnv (base extra : List (String × String)) : List (String × String) :=
  base.filter (fun p => getA p.1 extra = none) ++ extra

/-- The external world of one `RuntimeWrapper`: the process environment and
the MCP client operations, which may fail. -/
structure ConnEnv where
  procCwd : String
  procEnv : List (String × String)
  connect : Transport → Except String Nat
  remoteCall : Nat → String → JsonVal → Except String ToolResult

/-- The mutable state of a `RuntimeWrapper` instance (plus the ghost
`opensLog`). -/
structure RuntimeWrapper where
  connections : List (String × Nat) := []
  transports : List (String × Transport) := []
  tools : List (String × RuntimeTool) := []
  serverConfigs : List (String × McpServerConfig) := []
  opensLog : List String := []

/-- `RuntimeWrapper.registerTools`: store the server configurations, then
register each tool under its safe function name, skipping tools whose server
configuration is missing. -/
def registerTools (tools : List DiscoveredTool) (serverConfigs : List McpServerConfig)
    (st : RuntimeWrapper) : RuntimeWrapper :=
  let st1 := { st with serverConfigs :=
    serverConfigs.foldl (fun m c => setA c.id c m) st.serverConfigs }
  tools.foldl (fun s t =>
    match getA t.serverId s.serverConfigs with
    | none => s
    | some cfg =>
      let functionName := createSafeFunctionName t.name t.serverId
      let rt : RuntimeTool :=
        { name := functionName, originalName := t.name, serverId := t.serverId
          serverConfig := cfg, tool := t }
      { s with tools := setA functionName rt s.tools }) st1

/-- The transport-construction half of `getConnection` (type dispatch and the
parameter checks that throw before anything connects). -/
def createTransport (env : ConnEnv) (serverId : String) (cfg : McpServerConfig) :
    Except String Transport :=
  if cfg.type = "http" then
    match cfg.url with
    | none => .error ("HTTP server " ++ serverId ++ " missing URL")
    | some u => .ok (.http u)
  else if cfg.type = "stdio" then
    match cfg.command with
    | none => .error ("Stdio server " ++ serverId ++ " missing command")
    | some [] => .error ("Stdio server " ++ serverId ++ " missing command")
    | some (c :: args) =>
        .ok (.stdio c args ((cfg.cwd).getD env.procCwd) (mergeEnv env.procEnv cfg.env))
  else
    .error ("Unsupported server type: " ++ cfg.type ++ " (server: " ++ serverId ++ ")")

/-- `RuntimeWrapper.getConnection`: return the cached client for the server id
if there is one; otherwise look up the configuration, build the transport,
connect, and cache client and transport under the server id.  All state
updates happen after a successful connect, so any thrown error leaves the
maps untouched. -/
def getConnection (env : ConnEnv) (st : RuntimeWrapper) (serverId : String) :
    Except String (Nat × RuntimeWrapper) :=
  match getA serverId st.connections with
  | some c => .ok (c, st)
  | none =>
    match getA serverId st.serverConfigs with
    | none => .error ("Server configuration not found for " ++ serverId)
    | some cfg =>
      match createTransport env serverId cfg with
      | .error e => .error e
      | .ok tr =>
        match env.connect tr with
        | .error e => .error e
        | .ok client =>
            .ok (client,
              { st with
                connections := setA serverId client st.connections
                transports := setA serverId tr st.transports
                opensLog := st.opensLog ++ [serverId] })

/-- `input || {}` — `callTool` replaces a falsy argument with an empty
object before the remote call (`undefined` is modelled as `none`). -/
def jsOrEmptyObj : Option JsonVal → JsonVal
  | some v => if jsonTruthy v then v else .jObj []
  | none => .jObj []

/-- The body of the `try` block in `RuntimeWrapper.callTool`: get or open the
connection for the tool's server, then issue the remote call.  A failure
carries the state as mutated so far (a connection opened before a failing
remote call stays cached, as in the source). -/
def callToolCore (env : ConnEnv) (st : RuntimeWrapper) (rt : RuntimeTool)
    (input : Option JsonVal) : Except (String × RuntimeWrapper) (ToolResult × RuntimeWrapper) :=
  match getConnection env st rt.serverId with
  | .error e => .error (e, st)
  | .ok (client, st') =>
    match env.remoteCall client rt.originalName (jsOrEmptyObj input) with
    | .error e => .error (e, st')
    | .ok res => .ok (res, st')

/-- `RuntimeWrapper.callTool`: an unknown function name throws (outside the
`try`); for a registered tool, any error from connecting or from the remote
call is caught and converted into a normal `ToolResult` with `isError: true`
and a single text content item describing the failure. -/
def callTool (env : ConnEnv) (st : RuntimeWrapper) (functionName : String)
    (input : Option JsonVal) : Except String (ToolResult × RuntimeWrapper) :=
  match getA functionName st.tools with
  | none =>
      .error ("Tool function " ++ functionName ++ " not found. Available tools: " ++
        String.intercalate ", " (keysOf st.tools))
  | some rt =>
    match callToolCore env st rt input with
    | .ok (res, st') => .ok (res, st')
    | .error (msg, st') =>
        .ok ({ content := [{ type := "text"
                             text := "Error executing " ++ functionName ++ ": " ++ msg }]
               isError := some true, structuredContent := none }, st')

/-- `RuntimeWrapper.cleanup`: close every transport and clear all four maps
(the ghost `opensLog` keeps its history). -/
def cleanup (st : RuntimeWrapper) : RuntimeWrapper :=
  { st with connections := [], transports := [], tools := [], serverConfigs := [] }

/-! ### typeGenerator.ts — schema-to-signature generation

`json-schema-to-typescript`'s `compile` is the oracle `TypeCompileEnv.compile`
(schema, type name, banner comment ↦ generated declaration text, or a thrown
error).  Everything else in the generator is pure string building, translated
directly. -/

/-- Left brace character (written via its code point so that brace characters
never appear textually inside the file). -/
def lbrace : Char := Char.ofNat 123

/-- Right brace character. -/
def rbrace : Char := Char.ofNat 125

/-- JavaScript truthiness of a possibly-undefined string. -/
def optStrTruthy : Option String → Bool
  | some s => s ≠ ""
  | none => false

/-- `value && typeof value === 'object'` — the guard under which a schema is
handed to the schema compiler (arrays and non-null objects). -/
def schemaUsable : Option JsonVal → Bool
  | some (.jObj _) => true
  | some (.jArr _) => true
  | _ => false

mutual

/-- `String(value)` for a JSON value interpolated into a template literal
(arrays join their elements with commas, null joining as empty). -/
def jsDisplayJson : JsonVal → String
  | .jNull => "null"
  | .jBool b => cond b "true" "false"
  | .jNum n => toString n
  | .jStr s => s
  | .jArr xs => String.intercalate "," (jsDisplayArr xs)
  | .jObj _ => "[object Object]"

/-- Element rendering inside `Array.prototype.join` (null renders empty). -/
def jsDisplayArr : List JsonVal → List String
  | [] => []
  | .jNull :: xs => "" :: jsDisplayArr xs
  | v :: xs => jsDisplayJson v :: jsDisplayArr xs

end

/-- Property access `value.key` (undefined on non-objects). -/
def jGet (v : JsonVal) (key : String) : Option JsonVal :=
  match v with
  | .jObj fields => getA key fields
  | _ => none

/-- `Object.entries(value)` (objects list their fields, arrays and strings
their indexed elements, primitives nothing). -/
def entriesOf : JsonVal → List (String × JsonVal)
  | .jObj fields => fields
  | .jArr xs => xs.enum.map (fun p => (toString p.1, p.2))
  | .jStr s => s.data.enum.map (fun p => (toString p.1, .jStr ⟨[p.2]⟩))
  | _ => []

/-- `schema.required?.includes(propName)` (an absent `required` is falsy; an
array uses element equality, a string uses substring containment; the model
treats other values as a non-match rather than the `TypeError` JavaScript
would raise on them). -/
def requiredContains (req : Option JsonVal) (propName : String) : Bool :=
  match req with
  | some (.jArr l) => l.any (fun v => match v with | .jStr s => s = propName | _ => false)
  | some (.jStr s) => charsContain s.data propName.data
  | _ => false

/-- `GeneratedToolType` (typeGenerator.ts). -/
structure GeneratedToolType where
  toolName : String
  serverId : String
  serverName : String
  inputTypeName : String
  inputTypeDefinition : String
  outputTypeName : Option String
  outputTypeDefinition : Option String
  functionSignature : String
  namespacedServerName : String
  namespacedInputTypeName : String
  namespacedOutputTypeName : Option String
  camelCaseMethodName : String
  serverObjectName : String
  inputSchema : Option JsonVal
  outputSchema : Option JsonVal
  description : Option String

/-- `GeneratedTypes` (typeGenerator.ts). -/
structure GeneratedTypes where
  tools : List GeneratedToolType
  combinedTypes : String
  toolsNamespace : String

/-- The external `json-schema-to-typescript` compiler. -/
structure TypeCompileEnv where
  compile : JsonVal → String → String → Except String String

/-- `createSafeTypeName`'s part transform: first character upper-cased, the
rest lower-cased (an empty part stays empty). -/
def capitalizePart (s : String) : String :=
  match s.data with
  | [] => ""
  | c :: cs => ⟨jsToUpper c :: cs.map jsToLower⟩

/-- `split('_')` on character lists (empty parts kept, as in JavaScript). -/
def splitUnderscore : List Char → List (List Char)
  | [] => [[]]
  | c :: rest =>
    if c = '_' then [] :: splitUnderscore rest
    else
      match splitUnderscore rest with
      | [] => [[c]]
      | seg :: segs => (c :: seg) :: segs

/-- Replace every non-alphanumeric character by `_`, split on `_`, capitalize
each part, join. -/
def pascalizeSafe (s : String) : String :=
  String.join ((splitUnderscore (makeSafe s).data).map (fun cs => capitalizePart ⟨cs⟩))

/-- `TypeGeneratorService.createSafeTypeName`. -/
def createSafeTypeName (toolName serverId suffix : String) : String :=
  pascalizeSafe toolName ++ pascalizeSafe serverId ++ suffix

/-- `TypeGeneratorService.createNamespacedTypeName`. -/
def createNamespacedTypeName (toolName suffix : String) : String :=
  toPascalCase toolName ++ suffix

/-- The banner comment for an input type. -/
def inputBanner (tool : DiscoveredTool) : String :=
  "// Input type for " ++ tool.name ++ " tool from " ++ tool.serverName

/-- The banner comment for an output type. -/
def outputBanner (tool : DiscoveredTool) : String :=
  "// Output type for " ++ tool.name ++ " tool from " ++ tool.serverName

/-- The empty-interface fallback used both when a tool has no usable input
schema and when the schema compiler throws. -/
def fallbackInputInterface (tool : DiscoveredTool) : String :=
  inputBanner tool ++ "\nexport interface " ++
    createSafeTypeName tool.name tool.serverId "Input" ++ " \x7b\x7d\n"

/-- `TypeGeneratorService.generateFunctionSignature`. -/
def generateFunctionSignature (tool : DiscoveredTool) (inputTypeName : String)
    (outputTypeName : Option String) : String :=
  let description :=
    match tool.description with
    | some d =>
        if d ≠ "" then
          "\n  /**\n   * " ++ d ++ "\n   * Server: " ++ tool.serverName ++ "\n   */"
        else ""
    | none => ""
  let returnType :=
    if optStrTruthy outputTypeName then
      "Promise<ToolResultWithOutput<" ++ outputTypeName.getD "" ++ ">>"
    else "Promise<ToolResult>"
  description ++ "\n  " ++ createSafeFunctionName tool.name tool.serverId ++
    "(input: " ++ inputTypeName ++ "): " ++ returnType ++ ";"

/-- `TypeGeneratorService.generateToolType`: compile the input schema with an
empty-interface fallback on a missing/unusable schema or a compiler throw;
compile the output schema only if usable, dropping it on a compiler throw. -/
def generateToolType (env : TypeCompileEnv) (tool : DiscoveredTool) : GeneratedToolType :=
  let inputTypeName := createSafeTypeName tool.name tool.serverId "Input"
  let outputTypeName := createSafeTypeName tool.name tool.serverId "Output"
  let inputTypeDefinition :=
    if schemaUsable tool.inputSchema then
      match tool.inputSchema with
      | some schema =>
        match env.compile schema inputTypeName (inputBanner tool) with
        | .ok td => td
        | .error _ => fallbackInputInterface tool
      | none => fallbackInputInterface tool
    else fallbackInputInterface tool
  let outputTypeDefinition :=
    if schemaUsable tool.outputSchema then
      match tool.outputSchema with
      | some schema =>
        match env.compile schema outputTypeName (outputBanner tool) with
        | .ok td => some td
        | .error _ => none
      | none => none
    else none
  let functionSignature := generateFunctionSignature tool inputTypeName
    (if optStrTruthy outputTypeDefinition then some outputTypeName else none)
  { toolName := tool.name
    serverId := tool.serverId
    serverName := tool.serverName
    inputTypeName := inputTypeName
    inputTypeDefinition := inputTypeDefinition
    outputTypeName := if optStrTruthy outputTypeDefinition then some outputTypeName else none
    outputTypeDefinition := outputTypeDefinition
    functionSignature := functionSignature
    namespacedServerName := convertServerName tool.serverId
    namespacedInputTypeName := createNamespacedTypeName tool.name "Input"
    namespacedOutputTypeName :=
      if optStrTruthy outputTypeDefinition then some (createNamespacedTypeName tool.name "Output")
      else none
    camelCaseMethodName := convertToolName tool.name
    serverObjectName := createServerObjectName tool.serverId
    inputSchema := tool.inputSchema
    outputSchema := tool.outputSchema
    description := tool.description }

/-- One `@param` breakdown line of the detailed JSDoc (note the source trims
the whole interpolated line, so the leading indentation is removed). -/
def jsdocInputPropLine (schema : JsonVal) (p : String × JsonVal) : String :=
  let required :=
    if requiredContains (jGet schema "required") p.1 then "(required)" else "(optional)"
  let typeInfo :=
    match jGet p.2 "type" with
    | some v => if jsonTruthy v then "\x7b" ++ jsDisplayJson v ++ "\x7d" else ""
    | none => ""
  let description :=
    match jGet p.2 "description" with
    | some v => if jsonTruthy v then jsDisplayJson v else ""
    | none => ""
  jsTrim ("   *   - " ++ p.1 ++ " " ++ typeInfo ++ " " ++ required ++ " " ++ description)

/-- One `@returns` breakdown line of the detailed JSDoc. -/
def jsdocOutputPropLine (p : String × JsonVal) : String :=
  let typeInfo :=
    match jGet p.2 "type" with
    | some v => if jsonTruthy v then "\x7b" ++ jsDisplayJson v ++ "\x7d" else ""
    | none => ""
  let description :=
    match jGet p.2 "description" with
    | some v => if jsonTruthy v then jsDisplayJson v else ""
    | none => ""
  jsTrim ("   *   - " ++ p.1 ++ " " ++ typeInfo ++ " " ++ description)

/-- The `else if (schema.type)` tail of the output-schema JSDoc section. -/
def jsdocOutputTypeLines (l : List String) (schema : JsonVal) : List String :=
  match jGet schema "type" with
  | some v =>
    if jsonTruthy v then
      l ++ ["   *   Type: " ++ jsDisplayJson v] ++
        (match jGet schema "description" with
         | some d => if jsonTruthy d then ["   *   " ++ jsDisplayJson d] else []
         | none => [])
    else l
  | none => l

/-- `TypeGeneratorService.generateDetailedJSDoc`. -/
def generateDetailedJSDoc (tool : DiscoveredTool) : String :=
  let lines0 : List String := ["  /**"]
  let lines1 :=
    match tool.description with
    | some d => if d ≠ "" then lines0 ++ ["   * " ++ d, "   *"] else lines0
    | none => lines0
  let lines2 :=
    if schemaUsable tool.inputSchema then
      match tool.inputSchema with
      | some schema =>
        match jGet schema "properties" with
        | some props =>
          if jsonTruthy props then
            lines1 ++ ["   * @param input - Tool input parameters:"] ++
              (entriesOf props).map (jsdocInputPropLine schema) ++ ["   *"]
          else lines1
        | none => lines1
      | none => lines1
    else lines1
  let lines3 :=
    if schemaUsable tool.outputSchema then
      match tool.outputSchema with
      | some schema =>
        let l := lines2 ++ ["   * @returns Tool result with structured output:"]
        let l2 :=
          match jGet schema "properties" with
          | some props =>
            if jsonTruthy props then l ++ (entriesOf props).map jsdocOutputPropLine
            else jsdocOutputTypeLines l schema
          | none => jsdocOutputTypeLines l schema
        l2 ++ ["   *"]
      | none => lines2
    else lines2
  joinNl (lines3 ++ ["   * @server " ++ tool.serverName ++ " (" ++ tool.serverId ++ ")", "   */"])

/-- The per-line brace counter of `extractInterfaceContent` (left brace
increments and marks the scan started, right brace decrements). -/
def lineBraceScan (acc : Int × Bool) (cs : List Char) : Int × Bool :=
  cs.foldl (fun a c =>
    if c = lbrace then (a.1 + 1, true)
    else if c = rbrace then (a.1 - 1, a.2)
    else a) acc

/-- The scanning loop of `extractInterfaceContent`: collect the trimmed
content of every line while the brace depth stays positive, stopping at the
line on which it returns to zero. -/
def extractLoop (openBraceIdx : Int) : List String → Bool → Int → Bool → String → String
  | [], _, _, _, content => content
  | line :: rest, isFirst, bc, started, content =>
    let scanned := lineBraceScan (bc, started) line.data
    let content' :=
      if scanned.2 ∧ scanned.1 > 0 then
        let lineContent :=
          if isFirst then jsTrim ⟨line.data.drop (openBraceIdx + 1).toNat⟩ else jsTrim line
        if lineContent ≠ "" then content ++ "  " ++ lineContent ++ "\n" else content
      else content
    if scanned.2 ∧ scanned.1 = 0 then content'
    else extractLoop openBraceIdx rest false scanned.1 scanned.2 content'

/-- `TypeGeneratorService.extractInterfaceContent`. -/
def extractInterfaceContent (typeDefinition typeName : String) : String :=
  let lines := splitNl typeDefinition
  match lines.findIdx? (fun line => charsContain line.data ("export interface " ++ typeName).data) with
  | none => "  // No properties"
  | some idx =>
    let firstLine := lines.getD idx ""
    let openBraceIndex : Int :=
      match firstLine.data.findIdx? (· = lbrace) with
      | none => -1
      | some n => (n : Int)
    let content := extractLoop openBraceIndex (lines.drop idx) true 0 false ""
    if content ≠ "" then content else "    // No properties"

/-- First-occurrence-ordered key list (how iterating a JavaScript `Map`
built by insertion visits its keys). -/
def dedupKeys : List String → List String
  | [] => []
  | k :: ks => k :: (dedupKeys ks).filter (· ≠ k)

/-- Group a list by a string key, preserving first-occurrence key order and
element order inside each group (the `serverGroups` Maps of the source). -/
def groupedBy {α : Type} (keyOf : α → String) (xs : List α) : List (String × List α) :=
  (dedupKeys (xs.map keyOf)).map (fun k => (k, xs.filter (fun x => keyOf x = k)))

/-- Re-indent an extracted interface body by four spaces, line by line. -/
def indent4 (s : String) : String :=
  joinNl ((splitNl s).map (fun line => "    " ++ line))

/-- Rebuild the `DiscoveredTool` that `generateNamespacedTypes` passes to
`generateDetailedJSDoc`. -/
def toolOfGenerated (t : GeneratedToolType) : DiscoveredTool :=
  { name := t.toolName, description := t.description, inputSchema := t.inputSchema
    outputSchema := t.outputSchema, serverId := t.serverId, serverName := t.serverName }

/-- The namespace member declarations generated for one tool (input type, and
output type when one was generated). -/
def nsTypesForTool (tool : GeneratedToolType) : String :=
  let inputPart :=
    "  export interface " ++ tool.namespacedInputTypeName ++ " \x7b\n" ++
      indent4 (extractInterfaceContent tool.inputTypeDefinition tool.inputTypeName) ++
      "\n  \x7d\n\n"
  let outputPart :=
    if optStrTruthy tool.outputTypeDefinition ∧ optStrTruthy tool.namespacedOutputTypeName then
      "  export interface " ++ tool.namespacedOutputTypeName.getD "" ++ " \x7b\n" ++
        indent4 (extractInterfaceContent (tool.outputTypeDefinition.getD "")
          (tool.outputTypeName.getD "")) ++
        "\n  \x7d\n\n"
    else ""
  inputPart ++ outputPart

/-- The documented interface method generated for one tool. -/
def methodForTool (serverName : String) (tool : GeneratedToolType) : String :=
  let inputType := serverName ++ "." ++ tool.namespacedInputTypeName
  let returnType :=
    if optStrTruthy tool.namespacedOutputTypeName then
      "Promise<ToolResultWithOutput<" ++ serverName ++ "." ++
        tool.namespacedOutputTypeName.getD "" ++ ">>"
    else "Promise<ToolResult>"
  generateDetailedJSDoc (toolOfGenerated tool) ++ "\n" ++
    "  " ++ tool.camelCaseMethodName ++ "(input: " ++ inputType ++ "): " ++ returnType ++ ";\n\n"

/-- The preamble `generateNamespacedTypes` emits before the namespaces. -/
def nsPreamble : String :=
  "// Import CallToolResult from MCP SDK\nimport type \x7b CallToolResult \x7d from \"@modelcontextprotocol/sdk/types.js\";\n\n// Re-export for consistency\nexport type ToolResult = CallToolResult;\n\nexport interface ToolResultWithOutput<T> extends ToolResult \x7b\n  structuredContent?: T;\n\x7d\n\n"

/-- `TypeGeneratorService.generateNamespacedTypes`. -/
def generateNamespacedTypes (tools : List GeneratedToolType) : String :=
  let serverGroups := groupedBy (fun t => t.namespacedServerName) tools
  serverGroups.foldl (fun acc kv =>
    let serverName := kv.1
    let serverTools := kv.2
    acc ++
      "// " ++ serverName ++ " namespace with input/output types\n" ++
      "export namespace " ++ serverName ++ " \x7b\n" ++
      (serverTools.foldl (fun a t => a ++ nsTypesForTool t) "") ++
      "\x7d\n\n" ++
      "// " ++ serverName ++ " interface with methods\n" ++
      "export interface " ++ serverName ++ " \x7b\n" ++
      (serverTools.foldl (fun a t => a ++ methodForTool serverName t) "") ++
      "\x7d\n\n") nsPreamble

/-- Remove the first occurrence of `needle`, if any (the single-replacement
form of `String.prototype.replace` with a string pattern and empty
replacement). -/
def removeFirstSubChars (needle : List Char) : List Char → List Char
  | [] => []
  | c :: rest =>
    if needle.isPrefixOf (c :: rest) then (c :: rest).drop needle.length
    else c :: removeFirstSubChars needle rest

/-- `so.charAt(0).toUpperCase() + so.slice(1).replace('Server', '')` — the
member type name `generateNamespacedToolsNamespace` derives from a server
object name. -/
def mcpToolsMemberType (so : String) : String :=
  match so.data with
  | [] => ⟨removeFirstSubChars "Server".data []⟩
  | c :: cs => ⟨jsToUpper c :: removeFirstSubChars "Server".data cs⟩

/-- `TypeGeneratorService.generateNamespacedToolsNamespace`. -/
def generateNamespacedToolsNamespace (tools : List GeneratedToolType) : String :=
  let serverGroups := groupedBy (fun t => t.serverObjectName) tools
  let serverObjects := String.intercalate "\n"
    ((serverGroups.map Prod.fst).map (fun so => "  " ++ so ++ ": " ++ mcpToolsMemberType so ++ ";"))
  let serverMetadata := String.intercalate ",\n"
    (serverGroups.map (fun kv =>
      match kv.2 with
      | [] => ""
      | firstTool :: _ =>
        "  \"" ++ kv.1 ++ "\": \x7b\n    serverId: \"" ++ firstTool.serverId ++
          "\",\n    serverName: \"" ++ firstTool.serverName ++
          "\",\n    namespacedServerName: \"" ++ firstTool.namespacedServerName ++ "\",\n  \x7d"))
  "// Generated tools namespace for CodeMesh execution\n// This file is auto-generated by CodeMesh - do not edit manually\n\nexport interface McpTools \x7b\n" ++
    serverObjects ++
    "\n\x7d\n\n// Server metadata for namespaced API\nexport const SERVER_METADATA = \x7b\n" ++
    serverMetadata ++
    "\n\x7d as const;\n\n// Export for runtime use\nexport type ServerObjectName = keyof typeof SERVER_METADATA;\n"

/-- `TypeGeneratorService.generateTypes`: tools of failed discovery results
are skipped; each remaining tool is generated independently (the per-tool
`try`/`catch` of the source never fires because the modelled
`generateToolType` is total — schema-compiler failures are already handled
inside it, as in the source); the collected tools feed the namespaced type
text and the tools namespace.  The legacy `typeDefinitions` and
`functionSignatures` accumulators of the source do not reach the returned
value and are omitted. -/
def generateTypes (env : TypeCompileEnv) (discoveryResults : List DiscoveryResult) :
    GeneratedTypes :=
  let generatedTools := (discoveryResults.filter (fun r => r.success)).flatMap
    (fun r => r.tools.map (generateToolType env))
  { tools := generatedTools
    combinedTypes := generateNamespacedTypes generatedTools
    toolsNamespace := generateNamespacedToolsNamespace generatedTools }

/-! ### augmentation.ts and the add-augmentation handler — the documentation store

The backing store is modelled as a list of `(filename, content)` pairs in
directory order.  The two regular expressions are translated concretely: the
H1 split of augmentation.ts, and the handler's section regex, whose lazy body
with a multiline lookahead extends a match from a line-start occurrence of
the heading exactly up to the first line terminator (or the end of input).
The model assumes, as the handler's inputs guarantee, that the replacement
text contains no ECMAScript dollar-substitution patterns. -/

/-- Append a character to the front of the first segment of a split. -/
def consSeg (c : Char) : List (List Char) → List (List Char)
  | [] => [[c]]
  | seg :: segs => (c :: seg) :: segs

/-- The multiline split on H1 headings (`split` with the line-start `# `
regex): a `# ` at a line start (position 0 or right after a line terminator)
is a delimiter; everything else accumulates into the current segment. -/
def splitH1 : Bool → List Char → List (List Char)
  | _, [] => [[]]
  | atStart, c :: rest =>
    if atStart ∧ c = '#' ∧ rest.head? = some ' ' then
      match rest with
      | _ :: rest' => [] :: splitH1 false rest'
      | [] => consSeg c (splitH1 (isLineTerm c) [])
    else consSeg c (splitH1 (isLineTerm c) rest)

/-- Whether a line-start `# ` occurs anywhere in the text (the scan of
`splitH1`, as a predicate). -/
def hasH1 : Bool → List Char → Bool
  | _, [] => false
  | atStart, c :: rest =>
    (atStart ∧ c = '#' ∧ rest.head? = some ' ' : Bool) || hasH1 (isLineTerm c) rest

/-- The header pattern of an augmentation section — a word run, a dot, a word
run, anything after that ignored; no match on any other shape. -/
def parseHeaderKey (header : String) : Option (String × String) :=
  let w1 := header.data.takeWhile isWordChar
  if w1 = [] then none
  else
    match header.data.drop w1.length with
    | '.' :: rest =>
      let w2 := rest.takeWhile isWordChar
      if w2 = [] then none else some (⟨w1⟩, ⟨w2⟩)
    | _ => none

/-- `ToolAugmentation` (augmentation.ts). -/
structure ToolAugmentation where
  toolName : String
  serverObjectName : String
  documentation : String
deriving DecidableEq

/-- `parseMarkdownAugmentations`: split the file on line-start `# ` headings,
drop blank sections, parse each section's first line as
`serverObject.method`, keep only sections whose server object matches the one
derived from the filename, and take the trimmed rest of the section as the
documentation. -/
def parseMarkdownAugmentations (markdown : String) (serverObjectName : String) :
    List ToolAugmentation :=
  let sections := ((splitH1 true markdown.data).map (fun cs => (⟨cs⟩ : String))).filter
    (fun s => jsTrim s ≠ "")
  sections.filterMap (fun sec =>
    let lines := splitNl sec
    let header := jsTrim (lines.headD "")
    match parseHeaderKey header with
    | none => none
    | some kv =>
      if kv.1 = serverObjectName then
        some { toolName := kv.2, serverObjectName := serverObjectName
               documentation := jsTrim (joinNl lines.tail) }
      else none)

/-- `loadAugmentations` over a directory listing: keep `.md` files whose base
name is nonempty and free of line terminators (the shape the filename regex
accepts), derive the server object name from the base name, parse, and index
every parsed augmentation by its `serverObject.toolName` key. -/
def loadAugmentations (files : List (String × String)) : List (String × ToolAugmentation) :=
  (files.filter (fun f => strEndsWith f.1 ".md")).foldl (fun m fc =>
    if fc.1 = ".md" ∨ (strDropRight fc.1 3).data.any isLineTerm then m
    else
      let serverId := strDropRight fc.1 3
      let serverObjectName := createServerObjectName serverId
      (parseMarkdownAugmentations fc.2 serverObjectName).foldl
        (fun m' a => setA (a.serverObjectName ++ "." ++ a.toolName) a m') m) []

/-- The handler's section regex: find the first line-start occurrence of the
`# toolKey` heading; the lazy body stops at the first position that is the
end of input or is followed by a line terminator (the multiline lookahead's
end-of-line alternative always fires before the next-heading alternative).
Returns the match's start index and one-past-the-end index. -/
def findSection (pre : List Char) : Bool → Nat → List Char → Option (Nat × Nat)
  | atStart, idx, cs =>
    if atStart ∧ pre.isPrefixOf cs then
      some (idx, idx + pre.length + ((cs.drop pre.length).takeWhile (fun c => !(isLineTerm c))).length)
    else
      match cs with
      | [] => none
      | c :: rest => findSection pre (isLineTerm c) (idx + 1) rest

/-- The content transformation of the add-augmentation handler: normalize the
markdown (prefix a `# toolKey` heading unless it already starts with `#`),
then replace the matched section span if the section regex matches, append
after a blank line if the file has other content, or start the file fresh. -/
def upsertContent (toolName existing markdown : String) : String :=
  let t := jsTrim markdown
  let normalized := if strStartsWith t "#" then t else "# " ++ toolName ++ "\n\n" ++ t
  match findSection ("# " ++ toolName).data true 0 existing.data with
  | some ij => ⟨existing.data.take ij.1⟩ ++ normalized ++ ⟨existing.data.drop ij.2⟩
  | none =>
    if existing ≠ "" then jsTrim existing ++ "\n\n" ++ normalized ++ "\n"
    else normalized ++ "\n"

/-- The `replace` in the add-augmentation handler mapping a server object
name back to a server id by rewriting a trailing `Server` to `-server`. -/
def serverIdOfObjectName (so : String) : String :=
  if strEndsWith so "Server" then strDropRight so 6 ++ "-server" else so

/-- One add-augmentation call against an empty `.codemesh` directory, for a
scoped tool name already split into its validated `serverObject` and `method`
parts: the file written and its content. -/
def addAugmentationFresh (so m markdown : String) : String × String :=
  (serverIdOfObjectName so ++ ".md", upsertContent (so ++ "." ++ m) "" markdown)

/-! ### The execute-code handler's tool selection (index.ts) -/

/-- Line 60 of index.ts: restrict the configured servers to the requested id,
if one was given. -/
def serversToUseOf (servers : List McpServerConfig) (serverIdArg : Option String) :
    List McpServerConfig :=
  match serverIdArg with
  | some sid => servers.filter (fun s => s.id = sid)
  | none => servers

/-- The filtering loop of the execute-code handler: tools of successful
discovery results, restricted — when an explicit `toolNames` list was given —
to tools whose declared (service-native) name is an element of that list. -/
def selectToolsForExecution (toolNames : Option (List String))
    (results : List DiscoveryResult) : List DiscoveredTool :=
  results.foldl (fun acc r =>
    if r.success then
      match toolNames with
      | some names => acc ++ r.tools.filter (fun t => names.contains t.name)
      | none => acc ++ r.tools
    else acc) []

/-- How far the execute-code handler gets before running any script: it can
stop early because no configured server matches, stop early because no tool
survived the filter, or proceed to execution with the selected tools. -/
inductive ExecuteCodeOutcome where
  | noServers (message : String)
  | noToolsFound (message : String)
  | ran (toolsUsed : List DiscoveredTool)

/-- The tool-selection prefix of the execute-code handler (index.ts, up to
the point where the runtime wrapper would be built).  Messages are the
source's, minus decoration. -/
def executeCodeHandler (denv : DiscoEnv) (servers : List McpServerConfig)
    (toolNames : Option (List String)) (serverIdArg : Option String) : ExecuteCodeOutcome :=
  let serversToUse := serversToUseOf servers serverIdArg
  if serversToUse.isEmpty then
    ExecuteCodeOutcome.noServers
      (match serverIdArg with
       | some sid => "Server with ID " ++ sid ++ " not found in configuration"
       | none => "No servers configured for code execution")
  else
    let discoveryResults := discoverAllTools denv serversToUse
    let toolsToUse := selectToolsForExecution toolNames discoveryResults
    if toolsToUse.isEmpty then
      ExecuteCodeOutcome.noToolsFound
        (match toolNames with
         | some names =>
             "None of the requested tools [" ++ String.intercalate ", " names ++ "] were found"
         | none => "No tools discovered for code execution")
    else ExecuteCodeOutcome.ran toolsToUse

/-! ### Lemmas about the `Map` model -/

theorem getA_setA_self {α : Type} (k : String) (v : α) (l : List (String × α)) :
    getA k (setA k v l) = some v := by
  induction l with
  | nil => simp [setA, getA]
  | cons p rest ih =>
    by_cases h : p.1 = k
    · simp [setA, getA, h]
    · simp [setA, getA, h, ih]

theorem not_mem_keysOf_of_getA_none {α : Type} {k : String} {l : List (String × α)}
    (h : getA k l = none) : k ∉ keysOf l := by
  induction l with
  | nil => intro hmem; simp [keysOf] at hmem
  | cons p rest ih =>
    intro hmem
    by_cases hp : p.1 = k
    · simp [getA, hp] at h
    · have h' : getA k rest = none := by simpa [getA, hp] using h
      simp only [keysOf, List.map_cons, List.mem_cons] at hmem
      rcases hmem with h1 | h2
      · exact hp h1.symm
      · exact ih h' h2

theorem keysOf_setA_present {α : Type} (k : String) (v : α) (l : List (String × α))
    (h : getA k l ≠ none) : keysOf (setA k v l) = keysOf l := by
  induction l with
  | nil => simp [getA] at h
  | cons p rest ih =>
    by_cases hp : p.1 = k
    · simp [setA, keysOf, hp]
    · have h' : getA k rest ≠ none := by simpa [getA, hp] using h
      have := ih h'
      simp only [keysOf] at this
      simp [setA, keysOf, hp, this]

theorem keysOf_setA_absent {α : Type} (k : String) (v : α) (l : List (String × α))
    (h : getA k l = none) : keysOf (setA k v l) = keysOf l ++ [k] := by
  induction l with
  | nil => simp [setA, keysOf]
  | cons p rest ih =>
    by_cases hp : p.1 = k
    · simp [getA, hp] at h
    · have h' : getA k rest = none := by simpa [getA, hp] using h
      have := ih h'
      simp only [keysOf] at this
      simp [setA, keysOf, hp, this]

theorem nodup_keysOf_setA {α : Type} (k : String) (v : α) (l : List (String × α))
    (h : (keysOf l).Nodup) : (keysOf (setA k v l)).Nodup := by
  by_cases hk : getA k l = none
  · rw [keysOf_setA_absent k v l hk]
    have hnot : k ∉ keysOf l := not_mem_keysOf_of_getA_none hk
    rw [List.nodup_append]
    refine ⟨h, List.nodup_singleton k, ?_⟩
    intro a ha hmem
    simp only [List.mem_singleton] at hmem
    subst hmem
    exact hnot ha
  · rw [keysOf_setA_present k v l hk]; exact h

/-! ### Claim theorems -/

/-- Claim C7: within one execution the runtime wrapper keeps at most one live
connection per service id.  If a connection for the id is already cached,
`getConnection` returns exactly that client with the state unchanged (so
nothing new is opened); whenever `getConnection` succeeds, the returned
client is cached under the id, the connection keys stay duplicate-free (at
most one connection per service id), and the ghost open log grows by the id
exactly when no connection was cached before — so every later call for the
same service reuses the cached connection instead of opening another. -/
theorem c7_connection_reuse_per_service (env : ConnEnv) (st : RuntimeWrapper) (sid : String)
    (hnodup : (keysOf st.connections).Nodup) :
    (∀ c, getA sid st.connections = some c → getConnection env st sid = .ok (c, st)) ∧
    (∀ c st', getConnection env st sid = .ok (c, st') →
      getA sid st'.connections = some c ∧
      (keysOf st'.connections).Nodup ∧
      st'.opensLog = st.opensLog ++ (if getA sid st.connections = none then [sid] else [])) := by
  constructor
  · intro c hc
    simp [getConnection, hc]
  · intro c st' heq
    cases hcache : getA sid st.connections with
    | some c0 =>
      simp [getConnection, hcache] at heq
      obtain ⟨hc, hst⟩ := heq
      subst hc; subst hst
      simp [hcache, hnodup]
    | none =>
      simp only [getConnection, hcache] at heq
      cases hcfg : getA sid st.serverConfigs with
      | none => simp [hcfg] at heq
      | some cfg =>
        simp only [hcfg] at heq
        cases htr : createTransport env sid cfg with
        | error e => simp [htr] at heq
        | ok tr =>
          simp only [htr] at heq
          cases hco : env.connect tr with
          | error e => simp [hco] at heq
          | ok client =>
            simp only [hco, Except.ok.injEq, Prod.mk.injEq] at heq
            obtain ⟨hc, hst⟩ := heq
            subst hc
            rw [← hst]
            refine ⟨getA_setA_self sid client st.connections, ?_, ?_⟩
            · exact nodup_keysOf_setA sid client st.connections hnodup
            · simp [hcache]

/-- Witness for C7 at a concrete wrapper state with a cached connection. -/
def c7Env : ConnEnv :=
  { procCwd := "/work", procEnv := [], connect := fun _ => .ok 42
    remoteCall := fun _ _ _ => .ok { content := [] } }

/-- Concrete wrapper state holding one cached connection for `a-server`. -/
def c7State : RuntimeWrapper :=
  { connections := [("a-server", 5)], transports := [], tools := []
    serverConfigs := [], opensLog := ["a-server"] }

theorem c7_connection_reuse_per_service_witness :
    getConnection c7Env c7State "a-server" = .ok (5, c7State) :=
  (c7_connection_reuse_per_service c7Env c7State "a-server" (by decide)).1 5 (by decide)

/-- Claim C3: for a registered tool function, a failure anywhere in the
connection/remote-call pipeline makes `callTool` return a normal result
(`Except.ok`, not an exception) whose `isError` is `true` and whose single
text content item names the failing function and carries the failure
message. -/
theorem c3_callTool_returns_error_result (env : ConnEnv) (st : RuntimeWrapper)
    (fn : String) (rt : RuntimeTool) (input : Option JsonVal) (msg : String)
    (stE : RuntimeWrapper)
    (hreg : getA fn st.tools = some rt)
    (hfail : callToolCore env st rt input = .error (msg, stE)) :
    callTool env st fn input =
      .ok ({ content := [{ type := "text", text := "Error executing " ++ fn ++ ": " ++ msg }]
             isError := some true, structuredContent := none }, stE) := by
  simp [callTool, hreg, hfail]

/-- Witness state for C3: one registered tool whose server configuration is
absent, so the connection step fails. -/
def c3Tool : DiscoveredTool :=
  { name := "get_alerts", serverId := "weather-server", serverName := "Weather" }

/-- The registered runtime tool of the C3 witness. -/
def c3RuntimeTool : RuntimeTool :=
  { name := "get_alerts_weather_server", originalName := "get_alerts"
    serverId := "weather-server"
    serverConfig := { id := "weather-server", name := "Weather", type := "http"
                      url := some "http://w" }
    tool := c3Tool }

/-- The wrapper state of the C3 witness (tool registered, no configs). -/
def c3State : RuntimeWrapper :=
  { connections := [], transports := []
    tools := [("get_alerts_weather_server", c3RuntimeTool)], serverConfigs := [] }

theorem c3_callTool_returns_error_result_witness :
    callTool c7Env c3State "get_alerts_weather_server" none =
      .ok ({ content := [{ type := "text"
                           text := "Error executing get_alerts_weather_server: Server configuration not found for weather-server" }]
             isError := some true, structuredContent := none }, c3State) :=
  c3_callTool_returns_error_result c7Env c3State "get_alerts_weather_server" c3RuntimeTool
    none "Server configuration not found for weather-server" c3State rfl rfl

/-! ### C1 — executeCode on throwing scripts -/

/-- The log line a console statement contributes (junk on non-console
statements, which the theorems exclude). -/
def consoleLineOf : Stmt → String
  | .consoleLog args => consoleMessage args
  | .consoleError args => "ERROR: " ++ consoleMessage args
  | _ => ""

/-- Whether a statement is one of the captured console calls. -/
def isConsoleStmt : Stmt → Bool
  | .consoleLog _ => true
  | .consoleError _ => true
  | _ => false

theorem runSandbox_console_lines (pre : List Stmt)
    (hpre : ∀ s ∈ pre, isConsoleStmt s = true) (l : List Stmt) (logs : List String) :
    runSandbox (pre ++ l) logs = runSandbox l (logs ++ pre.map consoleLineOf) := by
  induction pre generalizing logs with
  | nil => simp
  | cons s rest ih =>
    have hs : isConsoleStmt s = true := hpre s (List.mem_cons_self s rest)
    have hrest : ∀ t ∈ rest, isConsoleStmt t = true := fun t ht =>
      hpre t (List.mem_cons_of_mem s ht)
    cases s with
    | consoleLog args =>
      simp only [List.cons_append, runSandbox, List.append_eq]
      rw [ih hrest]
      simp [consoleLineOf, List.append_assoc]
    | consoleError args =>
      simp only [List.cons_append, runSandbox, List.append_eq]
      rw [ih hrest]
      simp [consoleLineOf, List.append_assoc]
    | throwJs e => simp [isConsoleStmt] at hs
    | retJs v => simp [isConsoleStmt] at hs

/-- Claim C1, counterexample: a script that logs one line and then throws an
`Error` whose `message` is the empty string.  `executeCode` does return a
`success: false` outcome with the pre-throw log line, but its `error` field
is the empty string — not the non-empty string the claim asserts. -/
def c1Script : Code :=
  .compiles [Stmt.consoleLog [JsVal.vStr "before"], Stmt.throwJs (JsError.errObj "")]

/-- Claim C1, counterexample: running `c1Script` yields `success := false`
with the pre-throw console line captured, but the `error` field is `""`,
contradicting the claim that the error message is always non-empty. -/
theorem c1_counterexample :
    (executeCode [] c1Script).success = false ∧
    (executeCode [] c1Script).error = some "" ∧
    ((executeCode [] c1Script).error.getD "x").length = 0 ∧
    (executeCode [] c1Script).logs = ["before"] := by
  refine ⟨rfl, rfl, rfl, rfl⟩

/-- Claim C1 (amended): for every tool mapping and every script whose run
logs some console lines and then throws, `executeCode` returns (rather than
propagating the exception) an outcome with `success := false`, with `error`
equal to the thrown error's reported text (so non-empty exactly when that
text is non-empty), and with `logs` listing, in order, exactly the lines
logged before the failure point. -/
theorem c1_throw_returns_failure_outcome (toolNames : List String) (pre : List Stmt)
    (e : JsError) (rest : List Stmt)
    (hpre : ∀ s ∈ pre, isConsoleStmt s = true) :
    executeCode toolNames (.compiles (pre ++ Stmt.throwJs e :: rest)) =
      { success := false, result := none, error := some (jsErrorText e)
        logs := pre.map consoleLineOf } := by
  show (match runSandbox (pre ++ Stmt.throwJs e :: rest) [] with
    | (logs, Except.ok v) =>
        ({ success := true, result := some v, error := none, logs := logs } : ExecutionResult)
    | (logs, Except.error er) =>
        { success := false, result := none, error := some (jsErrorText er), logs := logs }) = _
  rw [runSandbox_console_lines pre hpre]
  simp [runSandbox]

theorem c1_throw_returns_failure_outcome_witness :
    executeCode [] (.compiles
      ([Stmt.consoleLog [JsVal.vStr "hi"]] ++ Stmt.throwJs (JsError.errObj "boom") :: [])) =
      { success := false, result := none, error := some "boom", logs := ["hi"] } :=
  c1_throw_returns_failure_outcome [] [Stmt.consoleLog [JsVal.vStr "hi"]]
    (JsError.errObj "boom") [] (by decide)

/-! ### C4 — discovery over configured services -/

/-- A discovery environment with no failures, for the C4 counterexample. -/
def c4Env : DiscoEnv :=
  { httpList := fun _ => .ok [], stdioList := fun _ => .ok [] }

/-- A configured service of the `websocket` transport kind — legal per the
configuration schema's `type` enum. -/
def wsServer : McpServerConfig :=
  { id := "ws1", name := "WS", type := "websocket", url := some "ws://h" }

/-- Claim C4, counterexample: one configured `websocket` service (N = 1, M
= 0) yields an empty result list, not a list of length 1 — the discovery
loop partitions servers into `http` and `stdio` and silently drops every
other transport kind. -/
theorem c4_counterexample :
    [wsServer].length = 1 ∧ (discoverAllTools c4Env [wsServer]).length = 0 :=
  ⟨rfl, rfl⟩

theorem c4_select_perm (env : DiscoEnv) (servers : List McpServerConfig)
    (h : ∀ s ∈ servers, s.type = "http" ∨ s.type = "stdio") :
    (discoverAllTools env servers).Perm (servers.map (specDiscoverOne env)) := by
  unfold discoverAllTools
  have hfil : servers.filter (fun s => s.type = "stdio") =
      servers.filter (fun s => !(decide (s.type = "http"))) := by
    apply List.filter_congr
    intro s hs
    rcases h s hs with hh | hst
    · simp [hh]
    · simp [hst]
  have hmapH : (servers.filter (fun s => s.type = "http")).map (discoverFromHttpServer env) =
      (servers.filter (fun s => s.type = "http")).map (specDiscoverOne env) := by
    apply List.map_congr_left
    intro s hs
    have := (List.mem_filter.mp hs).2
    simp only [decide_eq_true_eq] at this
    simp [specDiscoverOne, this]
  have hmapS : (servers.filter (fun s => !(decide (s.type = "http")))).map
        (discoverFromStdioServer env) =
      (servers.filter (fun s => !(decide (s.type = "http")))).map (specDiscoverOne env) := by
    apply List.map_congr_left
    intro s hs
    have hne := (List.mem_filter.mp hs).2
    simp only [Bool.not_eq_true', decide_eq_false_iff_not] at hne
    simp [specDiscoverOne, hne]
  rw [hfil, hmapH, hmapS, ← List.map_append]
  exact (List.filter_append_perm _ servers).map (specDiscoverOne env)

/-- Claim C4 (amended): restricted to configured services of the `http` and
`stdio` transport kinds (a `websocket` descriptor is dropped from the result
list entirely), `discoverAllTools` produces exactly the multiset of
per-service results of independent discovery: one result per service (length
N), with the failing services — and only they — marked `success := false`,
so M failures and N − M successes regardless of ordering. -/
theorem c4_one_result_per_service (env : DiscoEnv) (servers : List McpServerConfig)
    (h : ∀ s ∈ servers, s.type = "http" ∨ s.type = "stdio") :
    (discoverAllTools env servers).Perm (servers.map (specDiscoverOne env)) ∧
    (discoverAllTools env servers).length = servers.length ∧
    (discoverAllTools env servers).countP (fun r => !r.success) =
      (servers.map (specDiscoverOne env)).countP (fun r => !r.success) ∧
    (discoverAllTools env servers).countP (fun r => r.success) =
      (servers.map (specDiscoverOne env)).countP (fun r => r.success) := by
  have hperm := c4_select_perm env servers h
  exact ⟨hperm, by simpa using hperm.length_eq, hperm.countP_eq _, hperm.countP_eq _⟩

/-- Concrete servers for the C4 witness: one healthy http service, one
failing http service, one healthy stdio service. -/
def c4Servers : List McpServerConfig :=
  [{ id := "h1", name := "H", type := "http", url := some "http://x" },
   { id := "h-bad", name := "HB", type := "http", url := some "http://y" },
   { id := "s1", name := "S", type := "stdio", command := some ["run"] }]

/-- A discovery environment failing exactly on `h-bad`. -/
def c4WitnessEnv : DiscoEnv :=
  { httpList := fun s => if s.id = "h-bad" then .error "connect refused" else .ok [{ name := "get_alerts" }]
    stdioList := fun _ => .ok [{ name := "geocode" }] }

theorem c4_one_result_per_service_witness :
    (discoverAllTools c4WitnessEnv c4Servers).length = c4Servers.length ∧
    (discoverAllTools c4WitnessEnv c4Servers).countP (fun r => !r.success) = 1 := by
  have h := c4_one_result_per_service c4WitnessEnv c4Servers (by
    intro s hs
    simp only [c4Servers, List.mem_cons, List.mem_singleton] at hs
    rcases hs with rfl | rfl | rfl | h
    · left; rfl
    · left; rfl
    · right; rfl
    · simp at h)
  refine ⟨h.2.1, ?_⟩
  rw [h.2.2.1]
  rfl

/-! ### C8 — per-tool isolation of schema-conversion failures -/

theorem lengthFlatMapSum {α β : Type} (f : α → List β) (l : List α) :
    (l.flatMap f).length = (l.map (fun a => (f a).length)).sum := by
  induction l with
  | nil => rfl
  | cons a l ih => simp [List.flatMap_cons, ih]

theorem stringContains_iff (l : List String) (a : String) : l.contains a = true ↔ a ∈ l := by
  simp [List.contains_iff_exists_mem_beq, beq_iff_eq]

theorem charContains_iff (l : List Char) (a : Char) : l.contains a = true ↔ a ∈ l := by
  simp [List.contains_iff_exists_mem_beq, beq_iff_eq]

/-- Claim C8: in a batch of discovered tools, a tool whose input schema fails
to convert gets the empty-interface fallback as its input type; a tool whose
schema converts gets exactly the compiler's declaration; and generation never
drops a tool — the generated list covers every tool of every successful
discovery result (so one tool's conversion failure cannot abort the others,
each being generated independently by `generateToolType`). -/
theorem c8_schema_failure_isolated (env : TypeCompileEnv) (results : List DiscoveryResult) :
    ((generateTypes env results).tools.length =
      (((results.filter (fun r => r.success)).map (fun r => r.tools.length)).sum)) ∧
    (∀ r ∈ results, r.success = true → ∀ t ∈ r.tools,
      generateToolType env t ∈ (generateTypes env results).tools) ∧
    (∀ tool : DiscoveredTool, ∀ schema e,
      tool.inputSchema = some schema → schemaUsable (some schema) = true →
      env.compile schema (createSafeTypeName tool.name tool.serverId "Input")
          (inputBanner tool) = .error e →
      (generateToolType env tool).inputTypeDefinition = fallbackInputInterface tool) ∧
    (∀ tool : DiscoveredTool, ∀ schema td,
      tool.inputSchema = some schema → schemaUsable (some schema) = true →
      env.compile schema (createSafeTypeName tool.name tool.serverId "Input")
          (inputBanner tool) = .ok td →
      (generateToolType env tool).inputTypeDefinition = td) := by
  refine ⟨?_, ?_, ?_, ?_⟩
  · simp [generateTypes, lengthFlatMapSum, Function.comp_def]
  · intro r hr hsucc t ht
    simp only [generateTypes, List.mem_flatMap]
    exact ⟨r, List.mem_filter.mpr ⟨hr, by simp [hsucc]⟩, List.mem_map_of_mem _ ht⟩
  · intro tool schema e hschema husable hfail
    simp [generateToolType, hschema, husable, hfail]
  · intro tool schema td hschema husable hok
    simp [generateToolType, hschema, husable, hok]

/-- The well-formed tool of the C8 witness. -/
def c8GoodTool : DiscoveredTool :=
  { name := "good_tool", serverId := "a-server", serverName := "A"
    inputSchema := some (.jObj [("type", .jStr "object")]) }

/-- The deliberately malformed tool of the C8 witness. -/
def c8BadTool : DiscoveredTool :=
  { name := "bad_tool", serverId := "a-server", serverName := "A"
    inputSchema := some (.jObj [("bad", .jNull)]) }

/-- A schema compiler failing exactly on the malformed schema. -/
def c8Compiler : TypeCompileEnv :=
  { compile := fun schema name _banner =>
      match schema with
      | .jObj (("bad", _) :: _) => .error "unsupported schema"
      | _ => .ok ("export interface " ++ name ++ " \x7b ok: string; \x7d\n") }

/-- The discovery batch of the C8 witness. -/
def c8Batch : DiscoveryResult :=
  { serverId := "a-server", serverName := "A", success := true
    tools := [c8BadTool, c8GoodTool] }

theorem c8_schema_failure_isolated_witness :
    (generateToolType c8Compiler c8BadTool).inputTypeDefinition =
      fallbackInputInterface c8BadTool ∧
    (generateToolType c8Compiler c8GoodTool).inputTypeDefinition =
      "export interface GoodToolAServerInput \x7b ok: string; \x7d\n" ∧
    generateToolType c8Compiler c8GoodTool ∈ (generateTypes c8Compiler [c8Batch]).tools :=
  ⟨(c8_schema_failure_isolated c8Compiler [c8Batch]).2.2.1 c8BadTool
      (.jObj [("bad", .jNull)]) "unsupported schema" rfl rfl rfl,
   (c8_schema_failure_isolated c8Compiler [c8Batch]).2.2.2 c8GoodTool
      (.jObj [("type", .jStr "object")])
      "export interface GoodToolAServerInput \x7b ok: string; \x7d\n" rfl rfl (by rfl),
   (c8_schema_failure_isolated c8Compiler [c8Batch]).2.1 c8Batch
      (List.mem_singleton.mpr rfl) rfl c8GoodTool
      (List.mem_cons_of_mem _ (List.mem_cons_self _ _))⟩

/-! ### C10 — the execute-code toolNames filter -/

/-- The contribution of one discovery result to the execute-code tool
selection (the loop body of the handler, per result). -/
def selOne (toolNames : Option (List String)) (r : DiscoveryResult) : List DiscoveredTool :=
  if r.success then
    match toolNames with
    | some names => r.tools.filter (fun t => names.contains t.name)
    | none => r.tools
  else []

theorem selectTools_foldl (tn : Option (List String)) (results : List DiscoveryResult) :
    ∀ acc : List DiscoveredTool,
      results.foldl (fun acc r =>
        if r.success then
          match tn with
          | some names => acc ++ r.tools.filter (fun t => names.contains t.name)
          | none => acc ++ r.tools
        else acc) acc = acc ++ results.flatMap (selOne tn) := by
  induction results with
  | nil => intro acc; simp
  | cons r rs ih =>
    intro acc
    simp only [List.foldl_cons, List.flatMap_cons]
    rw [ih]
    unfold selOne
    cases tn with
    | none => by_cases h : r.success <;> simp [h, List.append_assoc]
    | some names => by_cases h : r.success <;> simp [h, List.append_assoc]

theorem selectTools_eq_flatMap (tn : Option (List String)) (results : List DiscoveryResult) :
    selectToolsForExecution tn results = results.flatMap (selOne tn) := by
  unfold selectToolsForExecution
  simpa using selectTools_foldl tn results []

theorem contains_filter_nodot (names : List String) (x : String)
    (hx : x.data.contains '.' = false) :
    (names.filter (fun n => !(n.data.contains '.'))).contains x = names.contains x := by
  have h1 : (names.filter (fun n => !(n.data.contains '.'))).contains x = true ↔
      names.contains x = true := by
    have hdot : '.' ∉ x.data := by
      intro hmem
      rw [(charContains_iff x.data '.').mpr hmem] at hx
      cases hx
    rw [stringContains_iff, stringContains_iff, List.mem_filter]
    constructor
    · exact fun h => h.1
    · exact fun h => ⟨h, by simp [hdot]⟩
  cases hc : names.contains x with
  | true => exact h1.mpr hc
  | false =>
    cases hl : (names.filter (fun n => !(n.data.contains '.'))).contains x with
    | false => rfl
    | true =>
      have h2 := h1.mp hl
      rw [h2] at hc
      cases hc

theorem selOne_flatMap_nodot (names : List String) (results : List DiscoveryResult)
    (hnd : ∀ r ∈ results, r.success = true → ∀ t ∈ r.tools, t.name.data.contains '.' = false) :
    results.flatMap (selOne (some names)) =
      results.flatMap (selOne (some (names.filter (fun n => !(n.data.contains '.'))))) := by
  induction results with
  | nil => rfl
  | cons r rs ih =>
    simp only [List.flatMap_cons]
    have h1 : selOne (some names) r =
        selOne (some (names.filter (fun n => !(n.data.contains '.')))) r := by
      simp only [selOne]
      by_cases hs : r.success
      · simp only [hs, if_true]
        apply List.filter_congr
        intro t ht
        rw [contains_filter_nodot names t.name (hnd r (List.mem_cons_self r rs) hs t ht)]
      · simp [hs]
    rw [h1, ih (fun r' hr' => hnd r' (List.mem_cons_of_mem r hr'))]

/-- Claim C10 (amended): with an explicit `toolNames` list, a discovered tool
is made available exactly when its service-native declared name is an element
of `toolNames`; a requested name selects only tools whose native name is
literally that string (so when no native name contains a dot, requested names
containing a dot — the scoped `serverObject.method` form — are no-ops); and
when nothing matches, the handler returns the none-found outcome without
reaching execution. -/
theorem c10_native_name_filter (names : List String) (results : List DiscoveryResult) :
    (∀ t, t ∈ selectToolsForExecution (some names) results ↔
      ∃ r, r ∈ results ∧ r.success = true ∧ t ∈ r.tools ∧ t.name ∈ names) ∧
    ((∀ r ∈ results, r.success = true → ∀ t ∈ r.tools, t.name.data.contains '.' = false) →
      selectToolsForExecution (some names) results =
        selectToolsForExecution (some (names.filter (fun n => !(n.data.contains '.')))) results) ∧
    (∀ (denv : DiscoEnv) (servers : List McpServerConfig) (sidArg : Option String),
      serversToUseOf servers sidArg ≠ [] →
      selectToolsForExecution (some names)
        (discoverAllTools denv (serversToUseOf servers sidArg)) = [] →
      executeCodeHandler denv servers (some names) sidArg =
        ExecuteCodeOutcome.noToolsFound
          ("None of the requested tools [" ++ String.intercalate ", " names ++ "] were found")) := by
  refine ⟨?_, ?_, ?_⟩
  · intro t
    rw [selectTools_eq_flatMap]
    simp only [List.mem_flatMap]
    constructor
    · rintro ⟨r, hr, ht⟩
      simp only [selOne] at ht
      by_cases hs : r.success
      · simp only [hs, if_true] at ht
        have hft := List.mem_filter.mp ht
        exact ⟨r, hr, hs, hft.1, (stringContains_iff names t.name).mp hft.2⟩
      · simp [hs] at ht
    · rintro ⟨r, hr, hs, ht, hn⟩
      refine ⟨r, hr, ?_⟩
      simp only [selOne, hs, if_true]
      exact List.mem_filter.mpr ⟨ht, (stringContains_iff names t.name).mpr hn⟩
  · intro hnd
    rw [selectTools_eq_flatMap, selectTools_eq_flatMap]
    exact selOne_flatMap_nodot names results hnd
  · intro denv servers sidArg hne hsel
    have h1 : (serversToUseOf servers sidArg).isEmpty = false := by
      cases h : serversToUseOf servers sidArg with
      | nil => exact absurd h hne
      | cons a l => rfl
    simp [executeCodeHandler, h1, hsel]

/-- A tool natively named `x` on `a-server` — its scoped name is
`aServer.x`. -/
def c10NativeTool : DiscoveredTool :=
  { name := "x", serverId := "a-server", serverName := "A" }

/-- A tool whose service-native declared name is literally the scoped-looking
string `aServer.x`. -/
def c10DottedTool : DiscoveredTool :=
  { name := "aServer.x", serverId := "a-server", serverName := "A" }

/-- The discovery result containing both C10 tools. -/
def c10Batch : DiscoveryResult :=
  { serverId := "a-server", serverName := "A", success := true
    tools := [c10NativeTool, c10DottedTool] }

/-- Claim C10, counterexample: the request `aServer.x` is exactly the scoped
`serverObject.method` form of the tool named `x` on `a-server`, yet passing
it as a `toolNames` entry does match a tool — the one whose native name is
literally `aServer.x` — contradicting the claim's assertion that a name in
scoped form never matches any tool (and the native tool `x` itself is,
correctly per the claim's first clause, not selected). -/
theorem c10_counterexample :
    createServerObjectName "a-server" ++ "." ++ convertToolName "x" = "aServer.x" ∧
    selectToolsForExecution (some ["aServer.x"]) [c10Batch] = [c10DottedTool] :=
  ⟨rfl, rfl⟩

/-- Witness discovery results: one successful service exposing `get_alerts`. -/
def c10WitnessResults : List DiscoveryResult :=
  [{ serverId := "weather-server", serverName := "Weather", success := true
     tools := [c3Tool] }]

theorem c10_native_name_filter_witness :
    (c3Tool ∈ selectToolsForExecution (some ["get_alerts"]) c10WitnessResults) ∧
    selectToolsForExecution (some ["get_alerts"]) c10WitnessResults =
      selectToolsForExecution (some (["get_alerts"].filter (fun n => !(n.data.contains '.'))))
        c10WitnessResults ∧
    executeCodeHandler c4Env [wsServer] (some ["weatherServer.getAlerts"]) none =
      ExecuteCodeOutcome.noToolsFound
        "None of the requested tools [weatherServer.getAlerts] were found" :=
  ⟨((c10_native_name_filter ["get_alerts"] c10WitnessResults).1 c3Tool).mpr
      ⟨_, List.mem_singleton.mpr rfl, rfl, List.mem_singleton.mpr rfl,
        List.mem_singleton.mpr rfl⟩,
   (c10_native_name_filter ["get_alerts"] c10WitnessResults).2.1
      (by
        intro r hr hs t ht
        simp only [c10WitnessResults, List.mem_singleton] at hr
        subst hr
        simp only [List.mem_singleton] at ht
        subst ht
        rfl),
   (c10_native_name_filter ["weatherServer.getAlerts"] []).2.2 c4Env [wsServer] none
      (by simp [serversToUseOf]) rfl⟩

/-! ### C6 — idempotence of toCamelCase -/

/-- No separator is immediately followed by another separator. -/
def noAdjSeps : List Char → Bool
  | [] => true
  | [_] => true
  | a :: b :: rest => (!(isSep a && isSep b)) && noAdjSeps (b :: rest)

/-- No separator is immediately followed by a non-line-terminator — exactly
the strings on which the camel-case regex finds no match, so one more
`toCamelCase` pass is the identity. -/
def camelStable : List Char → Bool
  | [] => true
  | [_] => true
  | a :: b :: rest => (!(isSep a && !(isLineTerm b))) && camelStable (b :: rest)

theorem noAdjSeps_tail {a : Char} {l : List Char} (h : noAdjSeps (a :: l) = true) :
    noAdjSeps l = true := by
  cases l with
  | nil => rfl
  | cons b rest =>
    simp only [noAdjSeps, Bool.and_eq_true] at h
    exact h.2

theorem noAdjSeps_head {a b : Char} {l : List Char} (h : noAdjSeps (a :: b :: l) = true)
    (ha : isSep a = true) : isSep b = false := by
  simp only [noAdjSeps, Bool.and_eq_true] at h
  have h1 := h.1
  cases hb : isSep b
  · rfl
  · rw [ha, hb] at h1
    cases h1

theorem isSep_jsToUpper (c : Char) : isSep (jsToUpper c) = isSep c := by
  unfold jsToUpper
  split <;> rfl

theorem isSep_of_isLineTerm {c : Char} (h : isLineTerm c = true) : isSep c = false := by
  simp only [isLineTerm, Bool.or_eq_true, decide_eq_true_eq] at h
  rcases h with ((rfl | rfl) | rfl) | rfl <;> rfl

theorem camelStable_cons {x : Char} {l : List Char} (hx : isSep x = false)
    (hl : camelStable l = true) : camelStable (x :: l) = true := by
  cases l with
  | nil => rfl
  | cons b rest => simp [camelStable, hx, hl]

theorem camelChars_of_stable (l : List Char) (h : camelStable l = true) :
    camelChars l = l := by
  induction l with
  | nil => rfl
  | cons c rest ih =>
    cases rest with
    | nil => by_cases hc : isSep c <;> simp [camelChars, hc]
    | cons d rest' =>
      simp only [camelStable, Bool.and_eq_true] at h
      have hpair := h.1
      have htail := h.2
      by_cases hc : isSep c
      · have hd : isLineTerm d = true := by
          rw [hc] at hpair
          cases hld : isLineTerm d
          · rw [hld] at hpair; cases hpair
          · rfl
        simp [camelChars, hc, hd, ih htail]
      · simp [camelChars, hc, ih htail]

theorem camelChars_cons_nonsep (c : Char) (rest : List Char) (hc : isSep c = false) :
    camelChars (c :: rest) = c :: camelChars rest := by
  cases rest with
  | nil => simp [camelChars, hc]
  | cons d rest' => simp [camelChars, hc]

theorem camelStable_cons₂ (a b : Char) (l : List Char) :
    camelStable (a :: b :: l) = ((!(isSep a && !(isLineTerm b))) && camelStable (b :: l)) := rfl

theorem camelStable_camelChars (l : List Char) :
    noAdjSeps l = true → camelStable (camelChars l) = true := by
  induction l using camelChars.induct with
  | case1 => intro _; rfl
  | case2 c hc => intro _; simp [camelChars, camelStable]
  | case3 c hc d rest' hd ih =>
    intro h
    have hih := ih (noAdjSeps_tail h)
    have hrw : camelChars (d :: rest') = d :: camelChars rest' :=
      camelChars_cons_nonsep d rest' (isSep_of_isLineTerm hd)
    have hstep : camelChars (c :: d :: rest') = c :: camelChars (d :: rest') := by
      simp [camelChars, hc, hd]
    rw [hrw] at hih
    rw [hstep, hrw, camelStable_cons₂]
    have hfirst : (!(isSep c && !(isLineTerm d))) = true := by simp [hc, hd]
    rw [hfirst, hih]
    rfl
  | case4 c hc d rest' hd ih =>
    intro h
    have hdns : isSep d = false := noAdjSeps_head h hc
    have hih := ih (noAdjSeps_tail (noAdjSeps_tail h))
    have hdnlt : isLineTerm d = false := by
      cases hx : isLineTerm d
      · rfl
      · exact absurd hx hd
    have hstep : camelChars (c :: d :: rest') = jsToUpper d :: camelChars rest' := by
      simp [camelChars, hc, hdnlt]
    rw [hstep]
    exact camelStable_cons (by rw [isSep_jsToUpper]; exact hdns) hih
  | case5 c rest hc ih =>
    intro h
    have hih := ih (noAdjSeps_tail h)
    have hc' : isSep c = false := by
      cases hx : isSep c
      · rfl
      · exact absurd hx hc
    rw [camelChars_cons_nonsep c rest hc']
    exact camelStable_cons hc' hih

/-- Claim C6, counterexample: the camel-case regex can consume a separator as
the captured "following character", so `a--b` maps to `a-b`, which a second
pass maps to `aB` — applying the conversion twice changes the result. -/
theorem c6_counterexample :
    toCamelCase "a--b" = "a-b" ∧
    toCamelCase (toCamelCase "a--b") = "aB" ∧
    toCamelCase (toCamelCase "a--b") ≠ toCamelCase "a--b" := by
  refine ⟨rfl, rfl, ?_⟩
  decide

/-- Claim C6 (amended): on ASCII identifiers in which no separator (`-`/`_`)
is immediately followed by another separator, `toCamelCase` is idempotent
(the counterexample `a--b` shows adjacent separators break idempotence; the
ASCII bound scopes the model's table of `toUpperCase`). -/
theorem c6_toCamelCase_idempotent (s : String)
    (_hascii : s.data.all (fun c => c.toNat < 128) = true)
    (hnoadj : noAdjSeps s.data = true) :
    toCamelCase (toCamelCase s) = toCamelCase s := by
  unfold toCamelCase
  show (⟨camelChars (camelChars s.data)⟩ : String) = ⟨camelChars s.data⟩
  rw [camelChars_of_stable _ (camelStable_camelChars s.data hnoadj)]

theorem c6_toCamelCase_idempotent_witness :
    toCamelCase (toCamelCase "get_alerts") = toCamelCase "get_alerts" :=
  c6_toCamelCase_idempotent "get_alerts" (by decide) (by decide)

/-! ### C5 — the add-augmentation upsert is not a section replacement

The section regex is compiled with the `m` flag, so the `$` inside its
lookahead matches at the end of every line; the lazy body therefore stops at
the end of the heading line, and `replace` swaps only the heading — the old
body text stays in the file after the newly inserted section. -/

/-- The store content after writing `body1` and then `body2` under the same
tool key into an initially empty store. -/
def c5Content : String :=
  upsertContent "weatherServer.getAlerts"
    (upsertContent "weatherServer.getAlerts" "" "body1") "body2"

/-- Claim C5: calling the upsert twice with the same key must leave exactly
one section whose body is exactly the second call's content, with no text of
the first body surviving.  The code violates this: the second call replaces
only the heading line (the multiline `$` ends the lazy match there), so the
file ends up as heading, `body2`, `body1` — one section, but with the first
body still present and the stored documentation equal to
`body2\n\nbody1`, not `body2`. -/
theorem c5_second_upsert_keeps_first_body :
    c5Content = "# weatherServer.getAlerts\n\nbody2\n\nbody1\n" ∧
    loadAugmentations [("weather-server.md", c5Content)] =
      [("weatherServer.getAlerts",
        { toolName := "getAlerts", serverObjectName := "weatherServer"
          documentation := "body2\n\nbody1" })] := by
  constructor
  · rfl
  · rfl

/-! ### C9 — write-then-load round trip of the documentation store -/

/-- Claim C9, counterexample: two write-then-load round trips the claim
covers but the code breaks.  (1) For the key `a_bServer.m` — `a_bServer`
ends with `Server` — the write goes to `a_b-server.md`, but loading derives
the server object name `aBServer` (camel-casing the file name), which does
not match the section heading `a_bServer.m`, so the section is skipped and
the loaded map is empty.  (2) For the key `aServer.m` with the body
`x\n# y.z\nw`, the line `# y.z` inside the body starts a new top-level
section on load, so the stored documentation is just `x`, not the written
body. -/
theorem c9_counterexample :
    loadAugmentations [addAugmentationFresh "a_bServer" "m" "hello"] = [] ∧
    loadAugmentations [addAugmentationFresh "aServer" "m" "x\n# y.z\nw"] =
      [("aServer.m",
        { toolName := "m", serverObjectName := "aServer", documentation := "x" })] := by
  constructor
  · rfl
  · rfl

/-! ### String and trim lemmas for the C9 round trip -/

theorem stringMkData (s : String) : (⟨s.data⟩ : String) = s := by
  cases s
  rfl

theorem stringData_inj {s t : String} (h : s.data = t.data) : s = t :=
  congrArg (fun d => (⟨d⟩ : String)) h

theorem strEndsWith_append (x suf : String) : strEndsWith (x ++ suf) suf = true := by
  simp only [strEndsWith, String.data_append, List.isSuffixOf_iff_suffix]
  exact List.suffix_append x.data suf.data

theorem strDropRight_append (x suf : String) :
    strDropRight (x ++ suf) suf.data.length = x := by
  apply stringData_inj
  simp only [strDropRight, String.data_append]
  have : (x.data ++ suf.data).length - suf.data.length = x.data.length := by
    simp
  rw [this, List.take_left]

theorem endsWith_decompose (s suf : String) (h : strEndsWith s suf = true) :
    s = strDropRight s suf.data.length ++ suf := by
  simp only [strEndsWith, List.isSuffixOf_iff_suffix] at h
  obtain ⟨t, ht⟩ := h
  have hs : s = (⟨t⟩ : String) ++ suf := by
    apply stringData_inj
    simp [ht]
  rw [hs, strDropRight_append]

theorem head_not_space_of_dropWhile {l : List Char} {x : Char} {xs : List Char}
    (h : l.dropWhile jsIsSpace = x :: xs) : jsIsSpace x = false := by
  have hidem := List.dropWhile_idempotent (p := jsIsSpace) (l := l)
  rw [h, List.dropWhile_cons] at hidem
  by_cases hx : jsIsSpace x = true
  · rw [if_pos hx] at hidem
    have hlen := (List.dropWhile_suffix (l := xs) jsIsSpace).length_le
    rw [hidem] at hlen
    simp at hlen
  · exact Bool.eq_false_iff.mpr hx

theorem trimChars_cons_space {c : Char} (l : List Char) (h : jsIsSpace c = true) :
    trimChars (c :: l) = trimChars l := by
  simp [trimChars, List.dropWhile_cons, h]

theorem trimChars_concat_nl (l : List Char) :
    trimChars (l ++ ['\n']) = trimChars l := by
  unfold trimChars
  rw [List.dropWhile_append]
  by_cases h : (l.dropWhile jsIsSpace).isEmpty
  · rw [if_pos h]
    have h0 : l.dropWhile jsIsSpace = [] := List.isEmpty_iff.mp h
    rw [h0]
    rfl
  · rw [if_neg h]
    exact List.rdropWhile_concat_pos _ _ '\n' (by decide)

theorem trimChars_idem (l : List Char) : trimChars (trimChars l) = trimChars l := by
  unfold trimChars
  have hdw : ((l.dropWhile jsIsSpace).rdropWhile jsIsSpace).dropWhile jsIsSpace =
      (l.dropWhile jsIsSpace).rdropWhile jsIsSpace := by
    cases hv : (l.dropWhile jsIsSpace).rdropWhile jsIsSpace with
    | nil => rfl
    | cons x xs =>
      have hpre : (x :: xs) <+: l.dropWhile jsIsSpace := hv ▸ List.rdropWhile_prefix _ _
      obtain ⟨t, ht⟩ := hpre
      have hx : jsIsSpace x = false :=
        head_not_space_of_dropWhile (l := l) (by rw [← ht]; rfl)
      rw [List.dropWhile_cons, hx]
      simp
  rw [hdw]
  exact List.rdropWhile_idempotent _ _

theorem dropWhile_of_no_space {l : List Char} (h : ∀ c ∈ l, jsIsSpace c = false) :
    l.dropWhile jsIsSpace = l := by
  cases l with
  | nil => rfl
  | cons x xs =>
    rw [List.dropWhile_cons, h x (List.mem_cons_self x xs)]
    simp

theorem trimChars_of_no_space {l : List Char} (h : ∀ c ∈ l, jsIsSpace c = false) :
    trimChars l = l := by
  unfold trimChars
  rw [dropWhile_of_no_space h]
  rw [List.rdropWhile_eq_self_iff]
  intro hl
  rw [h (l.getLast hl) (List.getLast_mem hl)]
  simp

theorem mem_dropWhile_of_neg {c : Char} {l : List Char} (hc : c ∈ l)
    (hns : jsIsSpace c = false) : c ∈ l.dropWhile jsIsSpace := by
  induction l with
  | nil => cases hc
  | cons x xs ih =>
    rw [List.dropWhile_cons]
    by_cases hx : jsIsSpace x = true
    · rw [if_pos hx]
      rcases List.mem_cons.mp hc with rfl | hmem
      · rw [hx] at hns; cases hns
      · exact ih hmem
    · rw [if_neg hx]
      exact hc

theorem trimChars_ne_nil {c : Char} {l : List Char} (hc : c ∈ l)
    (hns : jsIsSpace c = false) : trimChars l ≠ [] := by
  unfold trimChars
  have h1 : c ∈ l.dropWhile jsIsSpace := mem_dropWhile_of_neg hc hns
  have h2 : c ∈ (l.dropWhile jsIsSpace).reverse := List.mem_reverse.mpr h1
  have h3 : c ∈ (l.dropWhile jsIsSpace).reverse.dropWhile jsIsSpace :=
    mem_dropWhile_of_neg h2 hns
  intro hnil
  rw [List.rdropWhile, List.reverse_eq_nil_iff] at hnil
  rw [hnil] at h3
  cases h3

/-! ### Character-class and split lemmas for the C9 round trip -/

theorem not_lineterm_of_wordChar {c : Char} (h : isWordChar c = true) :
    isLineTerm c = false := by
  cases hl : isLineTerm c
  · rfl
  · simp only [isLineTerm, Bool.or_eq_true, decide_eq_true_eq] at hl
    rcases hl with ((rfl | rfl) | rfl) | rfl <;> cases h

theorem not_space_of_wordChar {c : Char} (h : isWordChar c = true) :
    jsIsSpace c = false := by
  cases hs : jsIsSpace c
  · rfl
  · exfalso
    simp only [jsIsSpace] at hs
    have hmem : c ∈ jsSpaceChars := (charContains_iff _ _).mp hs
    fin_cases hmem <;> cases h

theorem ne_nl_of_wordChar {c : Char} (h : isWordChar c = true) : c ≠ '\n' := by
  intro rfl'
  subst rfl'
  cases h

theorem splitNlChars_ne_nil (cs : List Char) : splitNlChars cs ≠ [] := by
  cases cs with
  | nil => simp [splitNlChars]
  | cons c rest =>
    by_cases h : c = '\n'
    · simp [splitNlChars, h]
    · simp only [splitNlChars, if_neg h]
      cases hs : splitNlChars rest <;> simp

theorem splitNlChars_no_nl {cs : List Char} (h : ∀ c ∈ cs, c ≠ '\n') :
    splitNlChars cs = [cs] := by
  induction cs with
  | nil => rfl
  | cons c rest ih =>
    have hc := h c (List.mem_cons_self c rest)
    have ihr := ih (fun d hd => h d (List.mem_cons_of_mem c hd))
    simp [splitNlChars, hc, ihr]

theorem splitNlChars_append {xs : List Char} (h : ∀ c ∈ xs, c ≠ '\n') (rest : List Char) :
    splitNlChars (xs ++ '\n' :: rest) = xs :: splitNlChars rest := by
  induction xs with
  | nil => simp [splitNlChars]
  | cons c cs ih =>
    have hc := h c (List.mem_cons_self c cs)
    have ihr := ih (fun d hd => h d (List.mem_cons_of_mem c hd))
    simp only [List.cons_append, splitNlChars, if_neg hc]
    rw [show cs.append ('\n' :: rest) = cs ++ '\n' :: rest from rfl, ihr]

theorem joinNl_cons_cons (s₁ s₂ : String) (rest : List String) :
    joinNl (s₁ :: s₂ :: rest) = s₁ ++ "\n" ++ joinNl (s₂ :: rest) := rfl

theorem joinNl_splitNl (cs : List Char) :
    joinNl ((splitNlChars cs).map (fun l => (⟨l⟩ : String))) = ⟨cs⟩ := by
  induction cs with
  | nil => rfl
  | cons c rest ih =>
    cases hs : splitNlChars rest with
    | nil => exact absurd hs (splitNlChars_ne_nil rest)
    | cons s ss =>
      rw [hs] at ih
      by_cases h : c = '\n'
      · subst h
        have hsplit : splitNlChars ('\n' :: rest) = [] :: s :: ss := by
          simp [splitNlChars, hs]
        rw [hsplit, List.map_cons, List.map_cons, joinNl_cons_cons]
        rw [List.map_cons] at ih
        rw [ih]
        apply stringData_inj
        have hnl : ("\n" : String).data = ['\n'] := rfl
        simp [String.data_append, hnl]
      · simp only [splitNlChars, if_neg h, hs, List.map_cons]
        cases ss with
        | nil =>
          have hsr : s = rest := by
            have ihd := congrArg String.data ih
            simpa using ihd
          subst hsr
          rfl
        | cons s₂ ss₂ =>
          rw [List.map_cons, joinNl_cons_cons]
          have ihd := congrArg String.data ih
          rw [List.map_cons, List.map_cons, joinNl_cons_cons] at ihd
          apply stringData_inj
          simp only [String.data_append, List.append_assoc, List.cons_append] at ihd ⊢
          rw [ihd]

theorem hasH1_false_append {xs : List Char} (h : ∀ c ∈ xs, isLineTerm c = false)
    (ys : List Char) : hasH1 false (xs ++ ys) = hasH1 false ys := by
  induction xs with
  | nil => rfl
  | cons c cs ih =>
    have hc := h c (List.mem_cons_self c cs)
    have ihr := ih (fun d hd => h d (List.mem_cons_of_mem c hd))
    simp only [List.cons_append, hasH1, hc]
    simp [ihr]

theorem hasH1_concat_nl (xs : List Char) : ∀ a : Bool,
    hasH1 a (xs ++ ['\n']) = hasH1 a xs := by
  induction xs with
  | nil =>
    intro a
    simp [hasH1]
  | cons c cs ih =>
    intro a
    simp only [List.cons_append, List.append_eq, hasH1, ih]
    cases cs with
    | nil => simp [hasH1]
    | cons d ds => simp

theorem splitH1_cons_neg {a : Bool} {c : Char} {rest : List Char}
    (h : ¬(a = true ∧ c = '#' ∧ rest.head? = some ' ')) :
    splitH1 a (c :: rest) = consSeg c (splitH1 (isLineTerm c) rest) := by
  cases rest with
  | nil => simp [splitH1, h]
  | cons d ds =>
    simp only [splitH1]
    rw [if_neg h]

theorem splitH1_heading (T : List Char) :
    splitH1 true ('#' :: ' ' :: T) = [] :: splitH1 false T := by
  simp [splitH1]

theorem splitH1_no_heading {cs : List Char} : ∀ {a : Bool}, hasH1 a cs = false →
    splitH1 a cs = [cs] := by
  induction cs with
  | nil => intro a _; rfl
  | cons c rest ih =>
    intro a h
    simp only [hasH1, Bool.or_eq_false_iff] at h
    obtain ⟨h1, h2⟩ := h
    have hcond : ¬(a = true ∧ c = '#' ∧ rest.head? = some ' ') := by
      simpa using h1
    rw [splitH1_cons_neg hcond, ih h2]
    rfl

theorem takeWhile_all {l : List Char} (h : ∀ c ∈ l, isWordChar c = true) :
    l.takeWhile isWordChar = l := by
  induction l with
  | nil => rfl
  | cons c cs ih =>
    rw [List.takeWhile_cons, h c (List.mem_cons_self c cs)]
    simp only [if_true]
    rw [ih (fun d hd => h d (List.mem_cons_of_mem c hd))]

theorem upsert_fresh (toolName markdown : String)
    (hb : strStartsWith (jsTrim markdown) "#" = false) :
    upsertContent toolName "" markdown =
      "# " ++ toolName ++ "\n\n" ++ jsTrim markdown ++ "\n" := by
  have hfind : findSection ("# " ++ toolName).data true 0 ("" : String).data = none := by
    have hne : ("# " ++ toolName).data = '#' :: ' ' :: toolName.data := by
      rw [String.data_append]
      rfl
    rw [hne]
    show findSection ('#' :: ' ' :: toolName.data) true 0 [] = none
    simp [findSection, List.isPrefixOf]
  unfold upsertContent
  rw [hfind]
  simp [hb]

theorem parse_fresh_content (so m body : String)
    (hsoW : ∀ c ∈ so.data, isWordChar c = true)
    (hmW : ∀ c ∈ m.data, isWordChar c = true)
    (hso_ne : so.data ≠ []) (hm_ne : m.data ≠ [])
    (hbody_trim : trimChars body.data = body.data)
    (hnoH1 : hasH1 true body.data = false) :
    parseMarkdownAugmentations ("# " ++ (so ++ "." ++ m) ++ "\n\n" ++ body ++ "\n") so =
      [{ toolName := m, serverObjectName := so, documentation := body }] := by
  have hkey : (so ++ "." ++ m).data = so.data ++ '.' :: m.data := by
    rw [String.data_append, String.data_append]
    simp [List.append_assoc]
  have hcontent : ("# " ++ (so ++ "." ++ m) ++ "\n\n" ++ body ++ "\n").data =
      '#' :: ' ' :: ((so.data ++ '.' :: m.data) ++ '\n' :: '\n' :: (body.data ++ ['\n'])) := by
    rw [String.data_append, String.data_append, String.data_append, String.data_append, hkey]
    show (((['#', ' '] ++ (so.data ++ '.' :: m.data)) ++ ['\n', '\n']) ++ body.data) ++ ['\n'] = _
    simp [List.append_assoc]
  have hkeyNoLT : ∀ c ∈ so.data ++ '.' :: m.data, isLineTerm c = false := by
    intro c hc
    rcases List.mem_append.mp hc with h1 | h2
    · exact not_lineterm_of_wordChar (hsoW c h1)
    · rcases List.mem_cons.mp h2 with rfl | h3
      · rfl
      · exact not_lineterm_of_wordChar (hmW c h3)
  have hkeyNoSp : ∀ c ∈ so.data ++ '.' :: m.data, jsIsSpace c = false := by
    intro c hc
    rcases List.mem_append.mp hc with h1 | h2
    · exact not_space_of_wordChar (hsoW c h1)
    · rcases List.mem_cons.mp h2 with rfl | h3
      · rfl
      · exact not_space_of_wordChar (hmW c h3)
  have hkeyNoNl : ∀ c ∈ so.data ++ '.' :: m.data, c ≠ '\n' := by
    intro c hc heq
    subst heq
    have := hkeyNoLT '\n' hc
    rw [show isLineTerm '\n' = true from rfl] at this
    cases this
  have hT : hasH1 false ((so.data ++ '.' :: m.data) ++ '\n' :: '\n' :: (body.data ++ ['\n'])) =
      false := by
    rw [hasH1_false_append hkeyNoLT]
    have e : hasH1 false ('\n' :: '\n' :: (body.data ++ ['\n'])) =
        hasH1 true (body.data ++ ['\n']) := by
      simp [hasH1, show isLineTerm '\n' = true from rfl]
    rw [e, hasH1_concat_nl, hnoH1]
  have hsplit : splitH1 true ("# " ++ (so ++ "." ++ m) ++ "\n\n" ++ body ++ "\n").data =
      [[], (so.data ++ '.' :: m.data) ++ '\n' :: '\n' :: (body.data ++ ['\n'])] := by
    rw [hcontent, splitH1_heading, splitH1_no_heading hT]
  obtain ⟨mc, mrest, hmdata⟩ : ∃ mc mrest, m.data = mc :: mrest := by
    cases hmd : m.data with
    | nil => exact absurd hmd hm_ne
    | cons a b => exact ⟨a, b, rfl⟩
  have hKeep : jsTrim ⟨(so.data ++ '.' :: m.data) ++ '\n' :: '\n' :: (body.data ++ ['\n'])⟩ ≠
      ("" : String) := by
    intro h
    have hdat := congrArg String.data h
    have hmem : mc ∈ (so.data ++ '.' :: m.data) ++ '\n' :: '\n' :: (body.data ++ ['\n']) := by
      apply List.mem_append_left
      apply List.mem_append_right
      rw [hmdata]
      exact List.mem_cons_of_mem '.' (List.mem_cons_self mc mrest)
    have hns : jsIsSpace mc = false := by
      apply not_space_of_wordChar
      apply hmW
      rw [hmdata]
      exact List.mem_cons_self mc mrest
    exact trimChars_ne_nil hmem hns (by simpa [jsTrim] using hdat)
  have hsplitNl : splitNlChars ((so.data ++ '.' :: m.data) ++ '\n' :: '\n' :: (body.data ++ ['\n'])) =
      (so.data ++ '.' :: m.data) :: [] :: splitNlChars (body.data ++ ['\n']) := by
    rw [splitNlChars_append hkeyNoNl]
    congr 1
  have hheader : jsTrim ⟨so.data ++ '.' :: m.data⟩ = ⟨so.data ++ '.' :: m.data⟩ := by
    show (⟨trimChars (so.data ++ '.' :: m.data)⟩ : String) = _
    rw [trimChars_of_no_space hkeyNoSp]
  have hparseKey : parseHeaderKey ⟨so.data ++ '.' :: m.data⟩ = some (so, m) := by
    unfold parseHeaderKey
    have htw : (so.data ++ '.' :: m.data).takeWhile isWordChar = so.data := by
      rw [List.takeWhile_append_of_pos hsoW, List.takeWhile_cons]
      rw [show isWordChar '.' = false from rfl]
      simp
    simp only [htw]
    rw [if_neg (by simpa using hso_ne)]
    rw [List.drop_left]
    simp only []
    rw [takeWhile_all hmW]
    rw [if_neg hm_ne]
  have hdocJoin : (splitNlChars (body.data ++ ['\n'])).map (fun l => (⟨l⟩ : String)) ≠ [] := by
    intro h
    exact splitNlChars_ne_nil _ (List.map_eq_nil_iff.mp h)
  have hdoc : jsTrim (joinNl (("" : String) ::
      (splitNlChars (body.data ++ ['\n'])).map (fun l => (⟨l⟩ : String)))) = body := by
    cases hX : (splitNlChars (body.data ++ ['\n'])).map (fun l => (⟨l⟩ : String)) with
    | nil => exact absurd hX hdocJoin
    | cons x xs =>
      rw [joinNl_cons_cons]
      have hjoin : joinNl (x :: xs) = ⟨body.data ++ ['\n']⟩ := by
        rw [← hX, joinNl_splitNl]
      rw [hjoin]
      have hdata2 : (("" : String) ++ "\n" ++ (⟨body.data ++ ['\n']⟩ : String)).data =
          '\n' :: (body.data ++ ['\n']) := by
        rw [String.data_append, String.data_append]
        rfl
      show (⟨trimChars (("" : String) ++ "\n" ++ (⟨body.data ++ ['\n']⟩ : String)).data⟩ : String) = body
      rw [hdata2, trimChars_cons_space _ (by decide), trimChars_concat_nl, hbody_trim,
        stringMkData]
  unfold parseMarkdownAugmentations
  rw [hsplit]
  simp only [List.map_cons, List.map_nil, List.filter_cons, List.filter_nil]
  rw [if_neg (by simp [jsTrim, trimChars])]
  rw [if_pos (show decide (jsTrim (⟨(so.data ++ '.' :: m.data) ++ '\n' :: '\n' ::
      (body.data ++ ['\n'])⟩ : String) ≠ "") = true from decide_eq_true hKeep)]
  simp only [List.filterMap_cons, List.filterMap_nil]
  unfold splitNl
  rw [show ((⟨(so.data ++ '.' :: m.data) ++ '\n' :: '\n' :: (body.data ++ ['\n'])⟩ :
      String)).data = (so.data ++ '.' :: m.data) ++ '\n' :: '\n' :: (body.data ++ ['\n'])
    from rfl]
  rw [hsplitNl]
  simp only [List.map_cons, List.headD_cons, List.tail_cons]
  rw [hheader]
  simp only [hparseKey]
  rw [if_pos trivial]
  rw [show ((⟨([] : List Char)⟩ : String)) = "" from rfl]
  rw [hdoc]

theorem loadAugmentations_singleton (f c : String)
    (hmd : strEndsWith f ".md" = true)
    (hne : f ≠ ".md")
    (hlt : (strDropRight f 3).data.any isLineTerm = false) :
    loadAugmentations [(f, c)] =
      (parseMarkdownAugmentations c (createServerObjectName (strDropRight f 3))).foldl
        (fun m' a => setA (a.serverObjectName ++ "." ++ a.toolName) a m') [] := by
  unfold loadAugmentations
  rw [List.filter_cons, if_pos hmd, List.filter_nil]
  simp only [List.foldl_cons, List.foldl_nil]
  rw [if_neg (by rw [hlt]; simp [hne])]

theorem createServerObjectName_roundtrip (so : String)
    (hso_suffix : strEndsWith so "Server" = true)
    (hso_camel : toCamelCase (strDropRight so 6) = strDropRight so 6) :
    createServerObjectName (strDropRight so 6 ++ "-server") = so := by
  unfold createServerObjectName stripServerSuffix
  rw [if_pos (strEndsWith_append _ _)]
  have h7 : strDropRight (strDropRight so 6 ++ "-server") 7 = strDropRight so 6 := by
    have h := strDropRight_append (strDropRight so 6) "-server"
    rw [show ("-server" : String).data.length = 7 from rfl] at h
    exact h
  rw [h7, hso_camel]
  have hd := endsWith_decompose so "Server" hso_suffix
  rw [show ("Server" : String).data.length = 6 from rfl] at hd
  exact hd.symm

/-- Claim C9, amended: a write-then-load round trip for a scoped tool name
`so.m` is exact when (1) both parts consist of word characters and are
nonempty, (2) the server object name ends in `Server` and its stem is already
camel-cased (so the file-name rewrite `Server` to `-server` and back is
lossless), and (3) the trimmed markdown body neither starts with `#` nor
contains a line-start `# ` heading.  Then one add-augmentation call on an
empty directory followed by `loadAugmentations` produces exactly one entry,
keyed `so.m`, carrying the trimmed body as the documentation. -/
theorem c9_write_then_load_round_trip (so m markdown : String)
    (hsoW : ∀ c ∈ so.data, isWordChar c = true)
    (hmW : ∀ c ∈ m.data, isWordChar c = true)
    (hso_ne : so.data ≠ []) (hm_ne : m.data ≠ [])
    (hso_suffix : strEndsWith so "Server" = true)
    (hso_camel : toCamelCase (strDropRight so 6) = strDropRight so 6)
    (hb : strStartsWith (jsTrim markdown) "#" = false)
    (hnoH1 : hasH1 true (jsTrim markdown).data = false) :
    loadAugmentations [addAugmentationFresh so m markdown] =
      [(so ++ "." ++ m,
        { toolName := m, serverObjectName := so, documentation := jsTrim markdown })] := by
  have hfile : addAugmentationFresh so m markdown =
      (strDropRight so 6 ++ "-server" ++ ".md",
        "# " ++ (so ++ "." ++ m) ++ "\n\n" ++ jsTrim markdown ++ "\n") := by
    unfold addAugmentationFresh serverIdOfObjectName
    rw [if_pos hso_suffix, upsert_fresh _ _ hb]
  have hmd : strEndsWith (strDropRight so 6 ++ "-server" ++ ".md") ".md" = true :=
    strEndsWith_append _ _
  have hdrop : strDropRight (strDropRight so 6 ++ "-server" ++ ".md") 3 =
      strDropRight so 6 ++ "-server" := by
    have h := strDropRight_append (strDropRight so 6 ++ "-server") ".md"
    rw [show (".md" : String).data.length = 3 from rfl] at h
    exact h
  have hneq : strDropRight so 6 ++ "-server" ++ ".md" ≠ ".md" := by
    intro h
    have hlen := congrArg (fun s => s.data.length) h
    simp only [String.data_append, List.length_append] at hlen
    rw [show ("-server" : String).data.length = 7 from rfl,
      show (".md" : String).data.length = 3 from rfl] at hlen
    omega
  have hltB : (strDropRight so 6 ++ "-server").data.any isLineTerm = false := by
    rw [String.data_append, List.any_append]
    have h1 : (strDropRight so 6).data.any isLineTerm = false := by
      apply List.any_eq_false.mpr
      intro x hx
      have hxso : x ∈ so.data := List.take_subset _ _ hx
      rw [not_lineterm_of_wordChar (hsoW x hxso)]
      exact Bool.false_ne_true
    have h2 : ("-server" : String).data.any isLineTerm = false := by decide
    rw [h1, h2]
    rfl
  have hlt : (strDropRight (strDropRight so 6 ++ "-server" ++ ".md") 3).data.any
      isLineTerm = false := by
    rw [hdrop]
    exact hltB
  have hparse : parseMarkdownAugmentations
      ("# " ++ (so ++ "." ++ m) ++ "\n\n" ++ jsTrim markdown ++ "\n") so =
      [{ toolName := m, serverObjectName := so, documentation := jsTrim markdown }] :=
    parse_fresh_content so m (jsTrim markdown) hsoW hmW hso_ne hm_ne
      (trimChars_idem markdown.data) hnoH1
  rw [hfile, loadAugmentations_singleton _ _ hmd hneq hlt, hdrop,
    createServerObjectName_roundtrip so hso_suffix hso_camel, hparse]
  simp only [List.foldl_cons, List.foldl_nil]
  rfl

/-- Concrete instantiation of the C9 round trip: writing the augmentation
`weatherServer.getAlerts` with body `hello world` to an empty directory and
loading it back yields exactly that augmentation. -/
theorem c9_write_then_load_round_trip_witness :
    loadAugmentations [addAugmentationFresh "weatherServer" "getAlerts" "hello world"] =
      [("weatherServer" ++ "." ++ "getAlerts",
        { toolName := "getAlerts", serverObjectName := "weatherServer",
          documentation := jsTrim "hello world" })] :=
  c9_write_then_load_round_trip "weatherServer" "getAlerts" "hello world"
    (by decide) (by decide) (by decide) (by decide) (by decide) (by decide)
    (by decide) (by decide)

end CodeMesh
